import Mathlib

/-
  Verification of the Aseprite color wheel (src/app/ui/color_wheel.cpp).

  Shallow embedding conventions:
  * C++ `double` values are modelled as real numbers (floating-point rounding
    is idealized away, as the specification's "within floating tolerance").
  * A C++ `double`-to-`int` conversion truncates toward zero: `trunc`.
  * C++ `/` and `%` on `int` truncate toward zero: `Int.tdiv` / `Int.tmod`.
  * `std::clamp` is `clampI` (ints) / `clampR` (reals); `std::atan2` is
    `atan2`; `std::fmod` is `fmod`.
-/

namespace ColorWheel

open Real

open scoped Classical

/-- Truncation toward zero, the semantics of a C++ `double`-to-`int` cast. -/
noncomputable def trunc (x : ℝ) : ℤ := if 0 ≤ x then ⌊x⌋ else ⌈x⌉

/-- `std::clamp` on integers (for `lo ≤ hi`). -/
def clampI (x lo hi : ℤ) : ℤ := max lo (min x hi)

/-- `std::clamp` on reals (for `lo ≤ hi`). -/
noncomputable def clampR (x lo hi : ℝ) : ℝ := max lo (min x hi)

/-- `std::atan2 y x`: the angle of the point `(x, y)` in `(-π, π]`. -/
noncomputable def atan2 (y x : ℝ) : ℝ :=
  if 0 < x then arctan (y / x)
  else if x < 0 then
    (if 0 ≤ y then arctan (y / x) + π else arctan (y / x) - π)
  else
    (if 0 < y then π / 2 else if y < 0 then -(π / 2) else 0)

/-- `std::fmod x y = x - y * trunc (x / y)` (remainder with the sign of `x`). -/
noncomputable def fmod (x y : ℝ) : ℝ := x - y * (trunc (x / y) : ℤ)

/-- The wheel's color model (enum `ColorModel` used by the widget:
`STANDARD = 0`, `RYB = 1`, `NORMAL_MAP = 2`). -/
inductive ColorModel where
  | STANDARD
  | RYB
  | NORMAL_MAP
deriving DecidableEq

/-- Modelled from the spec: `app::Color` is an external color value type
(out of scope of this repository slice) storing either HSV channels
(hue, saturation, value plus integer alpha), RGB channels plus alpha, or
the "mask" (no color) variant.  The factories `fromHsv`, `fromRgb` and
`fromMask` correspond to the three constructors. -/
inductive Color where
  | hsv (h s v : ℝ) (a : ℤ)
  | rgb (r g b a : ℤ)
  | mask

/-- Modelled from the spec: alpha channel accessor of `app::Color`
(the mask variant has alpha 0). -/
def Color.getAlpha : Color → ℤ
  | .hsv _ _ _ a => a
  | .rgb _ _ _ a => a
  | .mask => 0

/-- Modelled from the spec: hue accessor of `app::Color`.  The external
RGB-to-HSV conversion for RGB-stored colors is not needed by any claim
here, so it is left as 0. -/
def Color.getHsvHue : Color → ℝ
  | .hsv h _ _ _ => h
  | _ => 0

/-- Modelled from the spec: saturation accessor of `app::Color`. -/
def Color.getHsvSaturation : Color → ℝ
  | .hsv _ s _ _ => s
  | _ => 0

/-- Modelled from the spec: value accessor of `app::Color`. -/
def Color.getHsvValue : Color → ℝ
  | .hsv _ _ v _ => v
  | _ => 0

/-- `m_color.getType() == app::Color::MaskType`. -/
def Color.isMask : Color → Bool
  | .mask => true
  | _ => false

/-- The `n` column of the static harmony table `harmonies` of
`color_wheel.cpp` (lines 35-48); rows are the 8 patterns NONE,
COMPLEMENTARY, MONOCHROMATIC, ANALOGOUS, SPLIT, TRIADIC, TETRADIC, SQUARE
(callers clamp the row index to `[0, 7]`, so the catch-all row is never
reached). -/
def harmoniesN (i : ℕ) : ℤ :=
  if i = 0 then 1
  else if i = 1 then 2
  else if i = 2 then 2
  else if i = 3 then 3
  else if i = 4 then 3
  else if i = 5 then 3
  else 4

/-- The `hues` columns of the static harmony table (lines 40-47), row by
row: `{0,0,0,0}`, `{0,180,0,0}`, `{0,0,0,0}`, `{0,30,330,0}`,
`{0,150,210,0}`, `{0,120,240,0}`, `{0,120,180,300}`, `{0,90,180,270}`. -/
def harmoniesHues (i jc : ℕ) : ℤ :=
  if i = 1 then (if jc = 1 then 180 else 0)
  else if i = 3 then (if jc = 1 then 30 else if jc = 2 then 330 else 0)
  else if i = 4 then (if jc = 1 then 150 else if jc = 2 then 210 else 0)
  else if i = 5 then (if jc = 1 then 120 else if jc = 2 then 240 else 0)
  else if i = 6 then
    (if jc = 1 then 120 else if jc = 2 then 180 else if jc = 3 then 300 else 0)
  else if i = 7 then
    (if jc = 1 then 90 else if jc = 2 then 180 else if jc = 3 then 270 else 0)
  else 0

/-- The `sats` columns of the static harmony table (lines 40-47), row by
row: `{100,0,0,0}`, `{100,100,0,0}`, `{100,50,0,0}`, `{100,100,100,0}`,
`{100,100,100,0}`, `{100,100,100,0}`, `{100,100,100,100}`,
`{100,100,100,100}`. -/
def harmoniesSats (i jc : ℕ) : ℤ :=
  if i = 0 then (if jc = 0 then 100 else 0)
  else if i = 1 then (if jc ≤ 1 then 100 else 0)
  else if i = 2 then (if jc = 0 then 100 else if jc = 1 then 50 else 0)
  else if i = 3 then (if jc ≤ 2 then 100 else 0)
  else if i = 4 then (if jc ≤ 2 then 100 else 0)
  else if i = 5 then (if jc ≤ 2 then 100 else 0)
  else if i = 6 then (if jc ≤ 3 then 100 else 0)
  else if i = 7 then (if jc ≤ 3 then 100 else 0)
  else 0

/-- The widget state read by the functions under verification:
the current selection `m_color`, `m_colorModel`, `m_harmony` (kept as a raw
integer, since the code clamps it), `m_discrete`, `m_wheelRadius`, whether
`hasCaptureInMainArea()` holds, and the value of the external
`getCurrentAlphaForNewColor()` (modelled from the spec: the caller's
"current alpha for new color" policy, provided by the base class). -/
structure WheelState where
  color : Color
  colorModel : ColorModel
  harmony : ℤ
  discrete : Bool
  wheelRadius : ℝ
  hasCapture : Bool
  newAlpha : ℤ

/-- `ColorWheel::getHarmonies` (lines 444-448): the count of the harmony
row selected by `m_harmony` clamped to `[0, Harmony::LAST]`.  Modelled from
the spec for the enum bound: the header defining `Harmony` is outside this
slice; the spec fixes 8 patterns, so `Harmony::LAST = SQUARE = 7`. -/
def getHarmonies (st : WheelState) : ℤ :=
  harmoniesN (clampI st.harmony 0 7).toNat

/-- `ColorWheel::convertHueAngle` (lines 528-555): for the RYB model, the
piecewise-linear hue warp (`dir = 1` is RYB-to-RGB, otherwise RGB-to-RYB);
the identity for the other models. -/
noncomputable def convertHueAngle (model : ColorModel) (h : ℝ) (dir : ℤ) : ℝ :=
  if model = ColorModel.RYB then
    if dir = 1 then
      if 0 ≤ h ∧ h < 120 then h / 2
      else if h < 180 then h - 60
      else if h < 240 then 120 + 2 * (h - 180)
      else h
    else
      if 0 ≤ h ∧ h < 60 then 2 * h
      else if h < 120 then 60 + h
      else if h < 240 then 180 + (h - 120) / 2
      else h
  else h

/-- `ColorWheel::getColorInHarmony` (lines 450-459): pattern index clamped
to `[0, 7]`, sub-index clamped to `[0, n-1]`; hue is the RYB-frame base hue
plus the table offset, wrapped with `std::fmod`; saturation is scaled by
the table percentage and clamped to `[0, 1]`; value is kept. -/
noncomputable def getColorInHarmony (st : WheelState) (j : ℤ) : Color :=
  let i := (clampI st.harmony 0 7).toNat
  let jc := (clampI j 0 (harmoniesN i - 1)).toNat
  let hue := convertHueAngle st.colorModel st.color.getHsvHue (-1) +
             ((harmoniesHues i jc : ℤ) : ℝ)
  let sat := st.color.getHsvSaturation * ((harmoniesSats i jc : ℤ) : ℝ) / 100
  Color.hsv (fmod hue 360) (clampR sat 0 1) st.color.getHsvValue 255

/-- The harmony-swatch hit test of `getMainAreaColor` (lines 188-193):
swatch `i` is the rectangle
`gfx::Rect(umax-(n-i)*boxsize, vmax-boxsize, boxsize, boxsize)` and
`contains` is the half-open box test of `gfx::Rect`. -/
def swatchContains (st : WheelState) (umax vmax : ℤ) (i : ℕ) (px py : ℤ) : Prop :=
  let n := getHarmonies st
  let boxsize := min (Int.tdiv umax 10) (Int.tdiv vmax 10)
  umax - (n - i) * boxsize ≤ px ∧ px < umax - (n - i) * boxsize + boxsize ∧
  vmax - boxsize ≤ py ∧ py < vmax - boxsize + boxsize

instance (st : WheelState) (umax vmax : ℤ) (i : ℕ) (px py : ℤ) :
    Decidable (swatchContains st umax vmax i px py) := by
  unfold swatchContains; infer_instance

/-- First harmony swatch (if any) containing the position, as searched by
the loop at lines 188-202. -/
def findSwatch (st : WheelState) (umax vmax px py : ℤ) : Option ℕ :=
  (List.range (getHarmonies st).toNat).find?
    (fun i => decide (swatchContains st umax vmax i px py))

/-- The NORMAL_MAP branch of `getMainAreaColor` (lines 212-239), given the
centered offsets `u, v` and the (possibly capture-clamped) distance `d`. -/
noncomputable def normalPick (st : WheelState) (u v : ℤ) (d : ℝ) : Color :=
  let a0 := atan2 (-(v : ℝ)) (u : ℝ)
  let di0 := trunc (128 * d / st.wheelRadius)
  let a := if st.discrete then
      π * (((trunc (180 * a0 / π) + 360 + 15).tdiv 30) * 30 : ℤ) / 180
    else a0
  let di := if st.discrete then (di0.tdiv 32) * 32 else di0
  let r := trunc ((128 : ℝ) + (di : ℝ) * Real.cos a)
  let g := trunc ((128 : ℝ) + (di : ℝ) * Real.sin a)
  let b := 255 - di
  if d ≤ st.wheelRadius then
    Color.rgb (clampI r 0 255) (clampI g 0 255) (clampI b 128 255) 255
  else
    Color.rgb 128 128 255 255

/-- The hue/saturation wheel branch of `getMainAreaColor` (lines 242-272),
given the centered offsets `u, v` and distance `d ≤ m_wheelRadius`. -/
noncomputable def wheelPick (st : WheelState) (u v : ℤ) (d : ℝ) : Color :=
  let a := atan2 (-(v : ℝ)) (u : ℝ)
  let hue0 : ℤ := trunc (180 * a / π) + 180 + 180 + 30
  let hue1 : ℤ := if st.discrete then ((hue0 + 15).tdiv 30) * 30 else hue0
  let hue2 : ℤ := hue1.tmod 360
  let hue3 : ℤ := trunc (convertHueAngle st.colorModel (hue2 : ℝ) 1)
  let sat : ℤ := if st.discrete then
      ((trunc (120 * d / st.wheelRadius)).tdiv 20) * 20
    else trunc (100 * d / st.wheelRadius)
  Color.hsv ((clampI hue3 0 360 : ℤ) : ℝ) (clampR ((sat : ℝ) / 100) 0 1)
    (if st.color.isMask then 1 else st.color.getHsvValue) st.newAlpha

/-- The part of `getMainAreaColor` after the harmony hit test (lines
205-275): distance from the center, capture clamping, then the
NORMAL_MAP branch, the wheel branch, or the mask color. -/
noncomputable def mainPick (st : WheelState) (u v : ℤ) : Color :=
  let d0 := Real.sqrt ((u : ℝ) * u + (v : ℝ) * v)
  let d := if st.hasCapture = true ∧ st.wheelRadius < d0 then st.wheelRadius else d0
  if st.colorModel = ColorModel.NORMAL_MAP then normalPick st u v d
  else if d ≤ st.wheelRadius then wheelPick st u v d
  else Color.mask

/-- `ColorWheel::getMainAreaColor` (lines 174-275).  Returns the picked
color together with the new value of `m_harmonyPicked` (which the function
first resets to `false` and sets to `true` exactly on a swatch hit). -/
noncomputable def getMainAreaColor (st : WheelState) (pu umax pv vmax : ℤ) :
    Color × Bool :=
  let u := pu - Int.tdiv umax 2
  let v := pv - Int.tdiv vmax 2
  match (if 0 < st.color.getAlpha then findSwatch st umax vmax pu pv else none) with
  | some i =>
    let c := getColorInHarmony st (i : ℤ)
    (Color.hsv (convertHueAngle st.colorModel c.getHsvHue 1)
       c.getHsvSaturation c.getHsvValue st.color.getAlpha, true)
  | none => (mainPick st u v, false)

/-- Modelled from the spec: `cs_double_diff` is defined in the base-class
file `color_selector.cpp`, outside this repository slice; the spec
describes it as detecting that a color channel changed. -/
def cs_double_diff (a b : ℝ) : Prop := a ≠ b

/-- The repaint decision, split by region.  `base` stands for the flags of
the base-class call `ColorSelector::onNeedsSurfaceRepaint`; modelled from
the spec, the base class manages only the alpha bar, so it contributes
neither the MAIN_AREA nor the BOTTOM_BAR flag. -/
structure RepaintDecision where
  mainArea : Prop
  bottomBar : Prop
  base : Prop

/-- Modelled from the spec: the base-class repaint decision (alpha bar). -/
def baseNeedsRepaint (old new : Color) : Prop := old.getAlpha ≠ new.getAlpha

/-- `ColorWheel::onNeedsSurfaceRepaint` (lines 406-415): MAIN_AREA exactly
when the model is not NORMAL_MAP and the value channel changed; BOTTOM_BAR
exactly when hue or saturation changed; plus the base-class flags. -/
def onNeedsSurfaceRepaint (st : WheelState) (newColor : Color) : RepaintDecision where
  mainArea := st.colorModel ≠ ColorModel.NORMAL_MAP ∧
    cs_double_diff st.color.getHsvValue newColor.getHsvValue
  bottomBar := cs_double_diff st.color.getHsvHue newColor.getHsvHue ∨
    cs_double_diff st.color.getHsvSaturation newColor.getHsvSaturation
  base := baseNeedsRepaint st.color newColor

/-- The indicator position (relative to the wheel center) that
`onPaintMainArea` computes for harmony color `i` (lines 314-326):
`angle = color.getHsvHue() - 30` in degrees, `dist = saturation`, offset
`(int(cos(πa/180)·radius·dist), int(-sin(πa/180)·radius·dist))`. -/
noncomputable def indicatorOffset (st : WheelState) (i : ℤ) : ℤ × ℤ :=
  let c := getColorInHarmony st i
  let angle := c.getHsvHue - 30
  let dist := c.getHsvSaturation
  (trunc (Real.cos (π * angle / 180) * st.wheelRadius * dist),
   trunc (-(Real.sin (π * angle / 180) * st.wheelRadius * dist)))

/-- The claim's own pixel-placement formula, stated from the spec's words
for comparison with the source: angle is `hue - 30` degrees taken directly
from the returned color, `dist` is its saturation, and the offset from the
center is `(int(cos(angle)·radius·dist), int(-sin(angle)·radius·dist))`. -/
noncomputable def specColorToPixel (hue sat radius : ℝ) : ℤ × ℤ :=
  (trunc (Real.cos (π * (hue - 30) / 180) * radius * sat),
   trunc (-(Real.sin (π * (hue - 30) / 180) * radius * sat)))

/-- The two dirty flags of `m_paintFlags` that `color_wheel.cpp` manages
(the base class additionally owns an alpha-bar flag, untouched here). -/
structure PaintFlags where
  main : Bool
  bottom : Bool
deriving DecidableEq

/-- One scanline-style loop `for (i = 0; i < n && !stop; ++i)` of
`onPaintSurfaceInBgThread`: the shared `stop` flag is modelled as the
sequence of values it yields at successive reads; the function returns the
read counter after the loop exits (by completion or by a `true` read). -/
def stopXLoop (stop : ℕ → Bool) : ℕ → ℕ → ℕ
  | t, 0 => t
  | t, n + 1 => if stop t then t + 1 else stopXLoop stop (t + 1) n

/-- The nested main-area loop (lines 363-380):
`for (y...; y < h && !stop; ++y) for (x...; x < w && !stop; ++x)`.
Arguments: width, remaining rows, current read counter. -/
def stopYLoop (stop : ℕ → Bool) (w : ℕ) : ℕ → ℕ → ℕ
  | 0, t => t
  | n + 1, t => if stop t then t + 1 else stopYLoop stop w n (stopXLoop stop (t + 1) w)

/-- The bottom-bar phase of `onPaintSurfaceInBgThread` (lines 386-400):
runs only when `BottomBarFlag` is dirty; after the loop, returns with the
flags unchanged when `stop` reads `true`, otherwise toggles the flag. -/
def paintBottomPhase (flags : PaintFlags) (bw : ℕ) (stop : ℕ → Bool) (t : ℕ) :
    PaintFlags :=
  if flags.bottom then
    let t2 := stopXLoop stop t bw
    if stop t2 then flags else ⟨flags.main, xor flags.bottom true⟩
  else flags

/-- `ColorWheel::onPaintSurfaceInBgThread` (lines 353-404), tracking the
dirty flags and the sequence of `stop` reads.  The pixel writes go to the
externally owned surface and are not part of the flag state; the final
base-class call paints the alpha bar and (modelled from the spec) touches
neither of these two flags. -/
def onPaintSurfaceInBgThread (flags : PaintFlags) (mw mh bw : ℕ)
    (stop : ℕ → Bool) : PaintFlags :=
  if flags.main then
    let t1 := stopYLoop stop mw mh 0
    if stop t1 then flags
    else paintBottomPhase ⟨xor flags.main true, flags.bottom⟩ bw stop (t1 + 1)
  else paintBottomPhase flags bw stop 0

/- ### Basic properties of the embedding primitives -/

theorem trunc_eq_floor {x : ℝ} (hx : 0 ≤ x) : trunc x = ⌊x⌋ := by
  simp [trunc, hx]

theorem trunc_intCast (n : ℤ) : trunc (n : ℝ) = n := by
  unfold trunc
  split <;> simp

theorem trunc_le_add_one (x : ℝ) : ((trunc x : ℤ) : ℝ) < x + 1 := by
  unfold trunc
  split
  · exact lt_of_le_of_lt (Int.floor_le x) (by linarith)
  · exact Int.ceil_lt_add_one x

theorem lt_trunc_add_one (x : ℝ) : x - 1 < ((trunc x : ℤ) : ℝ) := by
  unfold trunc
  split
  · have := Int.sub_one_lt_floor x
    linarith
  · have := Int.le_ceil x
    linarith

theorem abs_trunc_sub_lt (x : ℝ) : |((trunc x : ℤ) : ℝ) - x| < 1 := by
  rw [abs_lt]
  constructor
  · have := lt_trunc_add_one x
    linarith
  · have := trunc_le_add_one x
    linarith

theorem trunc_nonneg {x : ℝ} (hx : 0 ≤ x) : 0 ≤ trunc x := by
  rw [trunc_eq_floor hx]
  exact Int.floor_nonneg.2 hx

theorem trunc_le_of_le {x : ℝ} {n : ℤ} (h : x ≤ (n : ℝ)) (hx : 0 ≤ x) :
    trunc x ≤ n := by
  rw [trunc_eq_floor hx]
  exact Int.floor_le_floor h |>.trans_eq (Int.floor_intCast n)

theorem clampI_of_mem {x lo hi : ℤ} (h1 : lo ≤ x) (h2 : x ≤ hi) :
    clampI x lo hi = x := by
  unfold clampI
  omega

theorem clampR_of_mem {x lo hi : ℝ} (h1 : lo ≤ x) (h2 : x ≤ hi) :
    clampR x lo hi = x := by
  simp only [clampR, min_eq_left h2, max_eq_right h1]

theorem clampI_mem {x lo hi : ℤ} (h : lo ≤ hi) :
    lo ≤ clampI x lo hi ∧ clampI x lo hi ≤ hi := by
  unfold clampI
  omega

theorem fmod_eq_self {x y : ℝ} (hx : 0 ≤ x) (hy : 0 < y) (hxy : x < y) :
    fmod x y = x := by
  have h0 : 0 ≤ x / y := div_nonneg hx hy.le
  have h1 : x / y < 1 := (div_lt_one hy).2 hxy
  have : trunc (x / y) = 0 := by
    rw [trunc_eq_floor h0]
    exact Int.floor_eq_zero_iff.2 ⟨h0, h1⟩
  simp [fmod, this]

/- ### `convertHueAngle` basics -/

theorem convertHueAngle_RYB_fwd (h : ℝ) :
    convertHueAngle ColorModel.RYB h 1 =
      if 0 ≤ h ∧ h < 120 then h / 2
      else if h < 180 then h - 60
      else if h < 240 then 120 + 2 * (h - 180)
      else h := by
  simp [convertHueAngle]

theorem convertHueAngle_RYB_inv (h : ℝ) :
    convertHueAngle ColorModel.RYB h (-1) =
      if 0 ≤ h ∧ h < 60 then 2 * h
      else if h < 120 then 60 + h
      else if h < 240 then 180 + (h - 120) / 2
      else h := by
  simp [convertHueAngle, (by decide : ¬((-1 : ℤ) = 1))]

theorem convertHueAngle_other {model : ColorModel} (hm : model ≠ ColorModel.RYB)
    (h : ℝ) (dir : ℤ) : convertHueAngle model h dir = h := by
  simp [convertHueAngle, hm]

theorem convFwd_piece1 {h : ℝ} (h0 : 0 ≤ h) (h1 : h < 120) :
    convertHueAngle ColorModel.RYB h 1 = h / 2 := by
  rw [convertHueAngle_RYB_fwd, if_pos ⟨h0, h1⟩]

theorem convFwd_piece2 {h : ℝ} (h0 : 120 ≤ h) (h1 : h < 180) :
    convertHueAngle ColorModel.RYB h 1 = h - 60 := by
  rw [convertHueAngle_RYB_fwd, if_neg (fun hc => absurd hc.2 (not_lt.2 h0)),
    if_pos h1]

theorem convFwd_piece3 {h : ℝ} (h0 : 180 ≤ h) (h1 : h < 240) :
    convertHueAngle ColorModel.RYB h 1 = 120 + 2 * (h - 180) := by
  rw [convertHueAngle_RYB_fwd, if_neg (fun hc => by linarith [hc.2]),
    if_neg (not_lt.2 h0), if_pos h1]

theorem convFwd_piece4 {h : ℝ} (h0 : 240 ≤ h) :
    convertHueAngle ColorModel.RYB h 1 = h := by
  rw [convertHueAngle_RYB_fwd, if_neg (fun hc => by linarith [hc.2]),
    if_neg (by linarith), if_neg (not_lt.2 h0)]

theorem convInv_piece1 {h : ℝ} (h0 : 0 ≤ h) (h1 : h < 60) :
    convertHueAngle ColorModel.RYB h (-1) = 2 * h := by
  rw [convertHueAngle_RYB_inv, if_pos ⟨h0, h1⟩]

theorem convInv_piece2 {h : ℝ} (h0 : 60 ≤ h) (h1 : h < 120) :
    convertHueAngle ColorModel.RYB h (-1) = 60 + h := by
  rw [convertHueAngle_RYB_inv, if_neg (fun hc => absurd hc.2 (not_lt.2 h0)),
    if_pos h1]

theorem convInv_piece3 {h : ℝ} (h0 : 120 ≤ h) (h1 : h < 240) :
    convertHueAngle ColorModel.RYB h (-1) = 180 + (h - 120) / 2 := by
  rw [convertHueAngle_RYB_inv, if_neg (fun hc => by linarith [hc.2]),
    if_neg (not_lt.2 h0), if_pos h1]

theorem convInv_piece4 {h : ℝ} (h0 : 240 ≤ h) :
    convertHueAngle ColorModel.RYB h (-1) = h := by
  rw [convertHueAngle_RYB_inv, if_neg (fun hc => by linarith [hc.2]),
    if_neg (by linarith), if_neg (not_lt.2 h0)]

theorem convHue_fwd_inv (model : ColorModel) {h : ℝ} (h0 : 0 ≤ h) (h1 : h < 360) :
    convertHueAngle model (convertHueAngle model h (-1)) 1 = h := by
  by_cases hm : model = ColorModel.RYB
  · subst hm
    rcases lt_or_le h 60 with c1 | c1
    · rw [convInv_piece1 h0 c1, convFwd_piece1 (by linarith) (by linarith)]
      ring
    · rcases lt_or_le h 120 with c2 | c2
      · rw [convInv_piece2 c1 c2, convFwd_piece2 (by linarith) (by linarith)]
        ring
      · rcases lt_or_le h 240 with c3 | c3
        · rw [convInv_piece3 c2 c3, convFwd_piece3 (by linarith) (by linarith)]
          ring
        · rw [convInv_piece4 c3, convFwd_piece4 c3]
  · rw [convertHueAngle_other hm, convertHueAngle_other hm]

theorem convHue_inv_fwd (model : ColorModel) {h : ℝ} (h0 : 0 ≤ h) (h1 : h < 360) :
    convertHueAngle model (convertHueAngle model h 1) (-1) = h := by
  by_cases hm : model = ColorModel.RYB
  · subst hm
    rcases lt_or_le h 120 with c1 | c1
    · rw [convFwd_piece1 h0 c1, convInv_piece1 (by linarith) (by linarith)]
      ring
    · rcases lt_or_le h 180 with c2 | c2
      · rw [convFwd_piece2 c1 c2, convInv_piece2 (by linarith) (by linarith)]
        ring
      · rcases lt_or_le h 240 with c3 | c3
        · rw [convFwd_piece3 c2 c3, convInv_piece3 (by linarith) (by linarith)]
          ring
        · rw [convFwd_piece4 c3, convInv_piece4 c3]
  · rw [convertHueAngle_other hm, convertHueAngle_other hm]

theorem convHue_fwd_mem (model : ColorModel) {h : ℝ} (h0 : 0 ≤ h) (h1 : h < 360) :
    0 ≤ convertHueAngle model h 1 ∧ convertHueAngle model h 1 < 360 := by
  by_cases hm : model = ColorModel.RYB
  · subst hm
    rcases lt_or_le h 120 with c1 | c1
    · rw [convFwd_piece1 h0 c1]; constructor <;> linarith
    · rcases lt_or_le h 180 with c2 | c2
      · rw [convFwd_piece2 c1 c2]; constructor <;> linarith
      · rcases lt_or_le h 240 with c3 | c3
        · rw [convFwd_piece3 c2 c3]; constructor <;> linarith
        · rw [convFwd_piece4 c3]; exact ⟨h0, h1⟩
  · rw [convertHueAngle_other hm]; exact ⟨h0, h1⟩

theorem convHue_inv_mem (model : ColorModel) {h : ℝ} (h0 : 0 ≤ h) (h1 : h < 360) :
    0 ≤ convertHueAngle model h (-1) ∧ convertHueAngle model h (-1) < 360 := by
  by_cases hm : model = ColorModel.RYB
  · subst hm
    rcases lt_or_le h 60 with c1 | c1
    · rw [convInv_piece1 h0 c1]; constructor <;> linarith
    · rcases lt_or_le h 120 with c2 | c2
      · rw [convInv_piece2 c1 c2]; constructor <;> linarith
      · rcases lt_or_le h 240 with c3 | c3
        · rw [convInv_piece3 c2 c3]; constructor <;> linarith
        · rw [convInv_piece4 c3]; exact ⟨h0, h1⟩
  · rw [convertHueAngle_other hm]; exact ⟨h0, h1⟩

/-- Claim C2: on `[0, 360)` the two directions of `convertHueAngle` are
exact mutual inverses for every color model; under RYB the forward
direction (`dir = 1`) is the stated piecewise-linear map, and under
STANDARD / NORMAL_MAP both directions are the identity. -/
theorem c2_convertHueAngle_inverse (model : ColorModel) (h : ℝ)
    (h0 : 0 ≤ h) (h1 : h < 360) :
    convertHueAngle model (convertHueAngle model h (-1)) 1 = h ∧
    convertHueAngle model (convertHueAngle model h 1) (-1) = h ∧
    (model = ColorModel.RYB →
      convertHueAngle model h 1 =
        (if h < 120 then h / 2
         else if h < 180 then h - 60
         else if h < 240 then 120 + 2 * (h - 180)
         else h)) ∧
    (model ≠ ColorModel.RYB →
      convertHueAngle model h 1 = h ∧ convertHueAngle model h (-1) = h) := by
  refine ⟨convHue_fwd_inv model h0 h1, convHue_inv_fwd model h0 h1, ?_, ?_⟩
  · rintro rfl
    rw [convertHueAngle_RYB_fwd]
    by_cases c1 : h < 120
    · rw [if_pos ⟨h0, c1⟩, if_pos c1]
    · rw [if_neg (fun hc => c1 hc.2), if_neg c1]
  · intro hm
    exact ⟨convertHueAngle_other hm h 1, convertHueAngle_other hm h (-1)⟩

/-- Witness for C2 at the concrete hue 90 under the RYB model. -/
theorem c2_convertHueAngle_inverse_witness :
    convertHueAngle ColorModel.RYB (convertHueAngle ColorModel.RYB 90 (-1)) 1 = 90 ∧
    convertHueAngle ColorModel.RYB (convertHueAngle ColorModel.RYB 90 1) (-1) = 90 ∧
    (ColorModel.RYB = ColorModel.RYB →
      convertHueAngle ColorModel.RYB (90 : ℝ) 1 =
        (if (90 : ℝ) < 120 then 90 / 2
         else if (90 : ℝ) < 180 then 90 - 60
         else if (90 : ℝ) < 240 then 120 + 2 * (90 - 180)
         else 90)) ∧
    (ColorModel.RYB ≠ ColorModel.RYB →
      convertHueAngle ColorModel.RYB (90 : ℝ) 1 = 90 ∧
      convertHueAngle ColorModel.RYB (90 : ℝ) (-1) = 90) :=
  c2_convertHueAngle_inverse ColorModel.RYB 90 (by norm_num) (by norm_num)

/- ### Harmony table and repaint flags -/

theorem harmoniesN_mem : ∀ i : ℕ, 1 ≤ harmoniesN i ∧ harmoniesN i ≤ 4 := by
  intro i
  unfold harmoniesN
  split_ifs <;> norm_num

theorem getHarmonies_mem (st : WheelState) :
    1 ≤ getHarmonies st ∧ getHarmonies st ≤ 4 :=
  harmoniesN_mem (clampI st.harmony 0 7).toNat

/-- Claim C8: every harmony-table row has `n ∈ [1, 4]`; `getHarmonies`
always returns such an `n`; and for arbitrary (even out-of-range) harmony
enum values and sub-indices, the clamped pattern index stays in `[0, 7]`
and the clamped sub-index stays in `[0, n-1]`, so every table access of
`getHarmonies` and `getColorInHarmony` is in bounds. -/
theorem c8_harmony_table_safe (st : WheelState) (j : ℤ) :
    (1 ≤ getHarmonies st ∧ getHarmonies st ≤ 4) ∧
    (0 ≤ clampI st.harmony 0 7 ∧ clampI st.harmony 0 7 ≤ 7) ∧
    (0 ≤ clampI j 0 (getHarmonies st - 1) ∧
      clampI j 0 (getHarmonies st - 1) ≤ getHarmonies st - 1) ∧
    (∀ i : ℕ, i ≤ 7 → 1 ≤ harmoniesN i ∧ harmoniesN i ≤ 4) := by
  have hn := getHarmonies_mem st
  refine ⟨hn, clampI_mem (by norm_num), ?_, fun i _ => harmoniesN_mem i⟩
  have : (0 : ℤ) ≤ getHarmonies st - 1 := by omega
  exact clampI_mem this

/-- The concrete state of the C6 scenario: STANDARD model, current color
hue 0, saturation 50 percent, value 50 percent. -/
def c6_scenario_state : WheelState :=
  ⟨Color.hsv 0 0.5 0.5 255, ColorModel.STANDARD, 0, false, 100, false, 255⟩

/-- Claim C6: `onNeedsSurfaceRepaint` marks MAIN_AREA dirty exactly when
the model is not NORMAL_MAP and the value channel differs, and BOTTOM_BAR
dirty exactly when hue or saturation differs; in the STANDARD-model
scenarios, changing only the value 0.5 to 0.8 marks MAIN_AREA and not
BOTTOM_BAR, and changing only the hue by 10 degrees marks BOTTOM_BAR and
not MAIN_AREA. -/
theorem c6_onNeedsSurfaceRepaint (st : WheelState) (newColor : Color) :
    ((onNeedsSurfaceRepaint st newColor).mainArea ↔
      (st.colorModel ≠ ColorModel.NORMAL_MAP ∧
       st.color.getHsvValue ≠ newColor.getHsvValue)) ∧
    ((onNeedsSurfaceRepaint st newColor).bottomBar ↔
      (st.color.getHsvHue ≠ newColor.getHsvHue ∨
       st.color.getHsvSaturation ≠ newColor.getHsvSaturation)) ∧
    ((onNeedsSurfaceRepaint c6_scenario_state (Color.hsv 0 0.5 0.8 255)).mainArea ∧
     ¬ (onNeedsSurfaceRepaint c6_scenario_state (Color.hsv 0 0.5 0.8 255)).bottomBar) ∧
    ((onNeedsSurfaceRepaint c6_scenario_state (Color.hsv 10 0.5 0.5 255)).bottomBar ∧
     ¬ (onNeedsSurfaceRepaint c6_scenario_state (Color.hsv 10 0.5 0.5 255)).mainArea) := by
  refine ⟨Iff.rfl, Iff.rfl, ⟨⟨?_, ?_⟩, ?_⟩, ⟨?_, ?_⟩⟩ <;>
    simp only [onNeedsSurfaceRepaint, cs_double_diff, c6_scenario_state,
      Color.getHsvValue, Color.getHsvHue, Color.getHsvSaturation] <;>
    norm_num <;> decide

/- ### Harmony colors (C7) -/

theorem fmod_eq_sub_floor {x y : ℝ} (hx : 0 ≤ x) (hy : 0 < y) :
    fmod x y = x - y * ⌊x / y⌋ := by
  rw [fmod, trunc_eq_floor (div_nonneg hx hy.le)]

theorem harmoniesHues_nonneg (i jc : ℕ) : 0 ≤ harmoniesHues i jc := by
  unfold harmoniesHues
  repeat' split
  all_goals norm_num

theorem harmoniesSats_nonneg (i jc : ℕ) : 0 ≤ harmoniesSats i jc := by
  unfold harmoniesSats
  repeat' split
  all_goals norm_num

/-- The concrete state of the C7 scenario: STANDARD model, TRIADIC harmony
(pattern index 5), base color hue 0, saturation 100 percent, value 0.7. -/
def c7_scenario_state : WheelState :=
  ⟨Color.hsv 0 1 0.7 255, ColorModel.STANDARD, 5, false, 100, false, 255⟩

/-- Claim C7: for every harmony sub-index `j` and pattern,
`getColorInHarmony` returns hue `convertHueAngle(baseHue, -1) + hues[j]`
wrapped modulo 360, saturation `baseSat · sats[j] / 100` clamped to
`[0, 1]`, and the unchanged base value; with the STANDARD model, base hue
0 and saturation 100 percent, the TRIADIC pattern yields exactly 3 colors
with hues 0, 120, 240 and saturation 1 each. -/
theorem c7_getColorInHarmony (st : WheelState) (j : ℤ)
    (h0 : 0 ≤ st.color.getHsvHue) (h1 : st.color.getHsvHue < 360) :
    ((getColorInHarmony st j).getHsvHue =
      (convertHueAngle st.colorModel st.color.getHsvHue (-1) +
         ((harmoniesHues (clampI st.harmony 0 7).toNat
             (clampI j 0 (harmoniesN (clampI st.harmony 0 7).toNat - 1)).toNat : ℤ) : ℝ)) -
      360 * ⌊(convertHueAngle st.colorModel st.color.getHsvHue (-1) +
         ((harmoniesHues (clampI st.harmony 0 7).toNat
             (clampI j 0 (harmoniesN (clampI st.harmony 0 7).toNat - 1)).toNat : ℤ) : ℝ)) / 360⌋ ∧
     (getColorInHarmony st j).getHsvSaturation =
      clampR (st.color.getHsvSaturation *
        ((harmoniesSats (clampI st.harmony 0 7).toNat
            (clampI j 0 (harmoniesN (clampI st.harmony 0 7).toNat - 1)).toNat : ℤ) : ℝ) / 100) 0 1 ∧
     (getColorInHarmony st j).getHsvValue = st.color.getHsvValue) ∧
    (getHarmonies c7_scenario_state = 3 ∧
     getColorInHarmony c7_scenario_state 0 = Color.hsv 0 1 0.7 255 ∧
     getColorInHarmony c7_scenario_state 1 = Color.hsv 120 1 0.7 255 ∧
     getColorInHarmony c7_scenario_state 2 = Color.hsv 240 1 0.7 255) := by
  constructor
  · have hconv := convHue_inv_mem st.colorModel h0 h1
    have hoff : (0 : ℝ) ≤ ((harmoniesHues (clampI st.harmony 0 7).toNat
        (clampI j 0 (harmoniesN (clampI st.harmony 0 7).toNat - 1)).toNat : ℤ) : ℝ) := by
      exact_mod_cast harmoniesHues_nonneg _ _
    refine ⟨?_, rfl, rfl⟩
    show fmod _ 360 = _
    rw [fmod_eq_sub_floor (by linarith [hconv.1]) (by norm_num)]
  · have hhue : convertHueAngle ColorModel.STANDARD (0 : ℝ) (-1) = 0 :=
      convertHueAngle_other (by decide) 0 (-1)
    have h5 : (clampI (5 : ℤ) 0 7).toNat = 5 := by decide
    have hj0 : (clampI (0 : ℤ) 0 (harmoniesN 5 - 1)).toNat = 0 := by decide
    have hj1 : (clampI (1 : ℤ) 0 (harmoniesN 5 - 1)).toNat = 1 := by decide
    have hj2 : (clampI (2 : ℤ) 0 (harmoniesN 5 - 1)).toNat = 2 := by decide
    refine ⟨by decide, ?_, ?_, ?_⟩ <;>
    · simp only [getColorInHarmony, c7_scenario_state, Color.getHsvHue,
        Color.getHsvSaturation, Color.getHsvValue, hhue, h5, hj0, hj1, hj2,
        show harmoniesHues 5 0 = 0 from rfl, show harmoniesHues 5 1 = 120 from rfl,
        show harmoniesHues 5 2 = 240 from rfl, show harmoniesSats 5 0 = 100 from rfl,
        show harmoniesSats 5 1 = 100 from rfl, show harmoniesSats 5 2 = 100 from rfl]
      norm_num [clampR]
      rw [fmod_eq_self (by norm_num) (by norm_num) (by norm_num)]

/-- Witness for C7 at the TRIADIC scenario state and sub-index 1. -/
theorem c7_getColorInHarmony_witness :
    (0 : ℝ) ≤ (c7_scenario_state.color.getHsvHue) ∧
    (c7_scenario_state.color.getHsvHue) < 360 ∧
    (getColorInHarmony c7_scenario_state 1).getHsvValue =
      c7_scenario_state.color.getHsvValue :=
  ⟨by norm_num [c7_scenario_state, Color.getHsvHue],
   by norm_num [c7_scenario_state, Color.getHsvHue],
   ((c7_getColorInHarmony c7_scenario_state 1
      (by norm_num [c7_scenario_state, Color.getHsvHue])
      (by norm_num [c7_scenario_state, Color.getHsvHue])).1).2.2⟩

/- ### Background rasterization pass (C9) -/

theorem stopXLoop_ge (stop : ℕ → Bool) : ∀ n t, t ≤ stopXLoop stop t n := by
  intro n
  induction n with
  | zero => intro t; simp [stopXLoop]
  | succ n ih =>
    intro t
    rw [stopXLoop]
    split
    · omega
    · exact le_trans (by omega) (ih (t + 1))

theorem stopYLoop_ge (stop : ℕ → Bool) (w : ℕ) : ∀ n t, t ≤ stopYLoop stop w n t := by
  intro n
  induction n with
  | zero => intro t; simp [stopYLoop]
  | succ n ih =>
    intro t
    rw [stopYLoop]
    split
    · omega
    · exact le_trans (le_trans (by omega) (stopXLoop_ge stop w (t + 1))) (ih _)

theorem stopXLoop_of_false {stop : ℕ → Bool}
    (hmono : ∀ i j, i ≤ j → stop i = true → stop j = true) :
    ∀ n t, stop (stopXLoop stop t n) = false → stopXLoop stop t n = t + n := by
  intro n
  induction n with
  | zero => intro t _; simp [stopXLoop]
  | succ n ih =>
    intro t hf
    rw [stopXLoop] at hf ⊢
    by_cases hs : stop t = true
    · rw [if_pos hs] at hf
      exact absurd (hmono t (t + 1) (by omega) hs) (by simp [hf])
    · rw [if_neg hs] at hf ⊢
      rw [ih (t + 1) hf]
      omega

theorem stopYLoop_of_false {stop : ℕ → Bool} {w : ℕ}
    (hmono : ∀ i j, i ≤ j → stop i = true → stop j = true) :
    ∀ n t, stop (stopYLoop stop w n t) = false →
      stopYLoop stop w n t = t + n * (w + 1) := by
  intro n
  induction n with
  | zero => intro t _; simp [stopYLoop]
  | succ n ih =>
    intro t hf
    rw [stopYLoop] at hf ⊢
    by_cases hs : stop t = true
    · rw [if_pos hs] at hf
      exact absurd (hmono t (t + 1) (by omega) hs) (by simp [hf])
    · rw [if_neg hs] at hf ⊢
      have h2 : stop (stopXLoop stop (t + 1) w) = false := by
        by_contra hc
        have := hmono (stopXLoop stop (t + 1) w) _
          (stopYLoop_ge stop w n _) (by simpa using hc)
        simp [this] at hf
      rw [ih _ hf, stopXLoop_of_false hmono w (t + 1) h2]
      ring

theorem stop_all_false_of_false {stop : ℕ → Bool}
    (hmono : ∀ i j, i ≤ j → stop i = true → stop j = true) {t : ℕ}
    (hf : stop t = false) : ∀ k, k ≤ t → stop k = false := by
  intro k hk
  by_contra hc
  have := hmono k t hk (by simpa using hc)
  simp [this] at hf

theorem paintBottomPhase_main (flags : PaintFlags) (bw : ℕ) (stop : ℕ → Bool)
    (t : ℕ) : (paintBottomPhase flags bw stop t).main = flags.main := by
  unfold paintBottomPhase
  by_cases hb : flags.bottom = true
  · simp only [hb, if_true]
    by_cases hs : stop (stopXLoop stop t bw) = true <;> simp [hs]
  · simp [hb]

/-- Claim C9: `onPaintSurfaceInBgThread` clears a dirty flag only when the
corresponding region's loop ran to completion with the stop flag never set
(all reads of the monotone stop flag up to and including the final check
are `false`), and when the stop flag becomes set during a region's pass
the function returns with that flag and all not-yet-processed flags
unchanged. -/
theorem c9_paint_stop_flags (flags : PaintFlags) (mw mh bw : ℕ) (stop : ℕ → Bool)
    (hmono : ∀ i j, i ≤ j → stop i = true → stop j = true) :
    (flags.main = true →
      (onPaintSurfaceInBgThread flags mw mh bw stop).main = false →
      ∀ k, k ≤ mh * (mw + 1) → stop k = false) ∧
    (flags.bottom = true →
      (onPaintSurfaceInBgThread flags mw mh bw stop).bottom = false →
      ∀ k, k ≤ (if flags.main = true then mh * (mw + 1) + 1 else 0) + bw →
        stop k = false) ∧
    (flags.main = true → (∃ k, k ≤ mh * (mw + 1) ∧ stop k = true) →
      onPaintSurfaceInBgThread flags mw mh bw stop = flags) ∧
    (flags.main = false → flags.bottom = true → (∃ k, k ≤ bw ∧ stop k = true) →
      onPaintSurfaceInBgThread flags mw mh bw stop = flags) := by
  have hT1y := @stopYLoop_of_false stop mw hmono mh 0
  refine ⟨?_, ?_, ?_, ?_⟩
  · intro hm hres
    simp only [onPaintSurfaceInBgThread, hm, if_true] at hres
    by_cases hs : stop (stopYLoop stop mw mh 0) = true
    · rw [if_pos hs] at hres
      simp [hm] at hres
    · have hs' : stop (stopYLoop stop mw mh 0) = false := by simpa using hs
      have hT1 := hT1y hs'
      intro k hk
      exact stop_all_false_of_false hmono hs' k (by omega)
  · intro hb hres
    by_cases hm : flags.main = true
    · simp only [onPaintSurfaceInBgThread, hm, if_true] at hres
      by_cases hs : stop (stopYLoop stop mw mh 0) = true
      · rw [if_pos hs] at hres
        simp [hb] at hres
      · have hs' : stop (stopYLoop stop mw mh 0) = false := by simpa using hs
        have hT1 := hT1y hs'
        rw [if_neg hs] at hres
        simp only [paintBottomPhase, hb, if_true] at hres
        by_cases hs2 : stop (stopXLoop stop (stopYLoop stop mw mh 0 + 1) bw) = true
        · rw [if_pos hs2] at hres
          simp at hres
        · have hs2' : stop (stopXLoop stop (stopYLoop stop mw mh 0 + 1) bw) = false := by
            simpa using hs2
          have hT2 := stopXLoop_of_false hmono bw (stopYLoop stop mw mh 0 + 1) hs2'
          intro k hk
          rw [hm] at hk
          simp only [if_true] at hk
          exact stop_all_false_of_false hmono hs2' k (by omega)
    · have hm' : flags.main = false := by simpa using hm
      simp only [onPaintSurfaceInBgThread, hm', Bool.false_eq_true, if_false] at hres
      simp only [paintBottomPhase, hb, if_true] at hres
      by_cases hs2 : stop (stopXLoop stop 0 bw) = true
      · rw [if_pos hs2] at hres
        simp [hb] at hres
      · have hs2' : stop (stopXLoop stop 0 bw) = false := by simpa using hs2
        have hT2 := stopXLoop_of_false hmono bw 0 hs2'
        intro k hk
        rw [hm'] at hk
        simp only [Bool.false_eq_true, if_false] at hk
        exact stop_all_false_of_false hmono hs2' k (by omega)
  · rintro hm ⟨k, hk, hks⟩
    have hs : stop (stopYLoop stop mw mh 0) = true := by
      by_contra hc
      have hs' : stop (stopYLoop stop mw mh 0) = false := by simpa using hc
      have hT1 := hT1y hs'
      exact absurd (hmono k (stopYLoop stop mw mh 0) (by omega) hks) (by simp [hs'])
    simp only [onPaintSurfaceInBgThread, hm, if_true, hs]
  · rintro hm hb ⟨k, hk, hks⟩
    have hs : stop (stopXLoop stop 0 bw) = true := by
      by_contra hc
      have hs' : stop (stopXLoop stop 0 bw) = false := by simpa using hc
      have hT2 := stopXLoop_of_false hmono bw 0 hs'
      exact absurd (hmono k (stopXLoop stop 0 bw) (by omega) hks) (by simp [hs'])
    simp only [onPaintSurfaceInBgThread, hm, Bool.false_eq_true, if_false,
      paintBottomPhase, hb, if_true, hs]

/-- Witness for C9 with both flags dirty, a 1-by-1 main area, width-1
bottom bar and a stop flag that never becomes set. -/
theorem c9_paint_stop_flags_witness :
    (((⟨true, true⟩ : PaintFlags).main = true →
      (onPaintSurfaceInBgThread ⟨true, true⟩ 1 1 1 (fun _ => false)).main = false →
      ∀ k, k ≤ 1 * (1 + 1) → (fun _ => false : ℕ → Bool) k = false) ∧
    ((⟨true, true⟩ : PaintFlags).bottom = true →
      (onPaintSurfaceInBgThread ⟨true, true⟩ 1 1 1 (fun _ => false)).bottom = false →
      ∀ k, k ≤ (if (⟨true, true⟩ : PaintFlags).main = true then 1 * (1 + 1) + 1 else 0) + 1 →
        (fun _ => false : ℕ → Bool) k = false) ∧
    ((⟨true, true⟩ : PaintFlags).main = true →
      (∃ k, k ≤ 1 * (1 + 1) ∧ (fun _ => false : ℕ → Bool) k = true) →
      onPaintSurfaceInBgThread ⟨true, true⟩ 1 1 1 (fun _ => false) = ⟨true, true⟩) ∧
    ((⟨true, true⟩ : PaintFlags).main = false →
      (⟨true, true⟩ : PaintFlags).bottom = true →
      (∃ k, k ≤ 1 ∧ (fun _ => false : ℕ → Bool) k = true) →
      onPaintSurfaceInBgThread ⟨true, true⟩ 1 1 1 (fun _ => false) = ⟨true, true⟩)) :=
  c9_paint_stop_flags ⟨true, true⟩ 1 1 1 (fun _ => false) (fun _ _ _ h => h)

/- ### The harmony-picked flag (C10) -/

theorem getMainAreaColor_eq_mainPick (st : WheelState) (pu umax pv vmax : ℤ)
    (hns : st.color.getAlpha ≤ 0 ∨ findSwatch st umax vmax pu pv = none) :
    getMainAreaColor st pu umax pv vmax =
      (mainPick st (pu - Int.tdiv umax 2) (pv - Int.tdiv vmax 2), false) := by
  unfold getMainAreaColor
  rcases hns with h | h
  · have ha : ¬ (0 < st.color.getAlpha) := by omega
    simp [ha]
  · by_cases ha : 0 < st.color.getAlpha <;> simp [ha, h]

/-- Claim C10: the `m_harmonyPicked` flag returned by `getMainAreaColor`
(reset at entry) is `true` exactly when the current selection's alpha is
positive and the position lies inside one of the harmony swatch
rectangles; with alpha 0 the hit test is skipped and the result comes
from the wheel geometry (`mainPick`). -/
theorem c10_harmonyPicked (st : WheelState) (pu umax pv vmax : ℤ) :
    ((getMainAreaColor st pu umax pv vmax).2 = true ↔
      (0 < st.color.getAlpha ∧
        ∃ i : ℕ, (i : ℤ) < getHarmonies st ∧ swatchContains st umax vmax i pu pv)) ∧
    (st.color.getAlpha = 0 →
      getMainAreaColor st pu umax pv vmax =
        (mainPick st (pu - Int.tdiv umax 2) (pv - Int.tdiv vmax 2), false)) := by
  constructor
  · constructor
    · intro htrue
      by_cases ha : 0 < st.color.getAlpha
      · rcases hf : findSwatch st umax vmax pu pv with - | i
        · simp [getMainAreaColor, ha, hf] at htrue
        · unfold findSwatch at hf
          have hmem : i ∈ List.range (getHarmonies st).toNat :=
            List.mem_of_find?_eq_some hf
          have hlt : i < (getHarmonies st).toNat := List.mem_range.1 hmem
          refine ⟨ha, i, by omega, ?_⟩
          have hp := List.find?_some hf
          simpa using hp
      · simp [getMainAreaColor, ha] at htrue
    · rintro ⟨ha, i, hi, hc⟩
      rcases hf : findSwatch st umax vmax pu pv with - | j
      · exfalso
        unfold findSwatch at hf
        rw [List.find?_eq_none] at hf
        exact absurd (by simpa using hc)
          (by simpa using hf i (List.mem_range.2 (by omega)))
      · simp [getMainAreaColor, ha, hf]
  · intro h0
    exact getMainAreaColor_eq_mainPick st pu umax pv vmax (Or.inl (by omega))

/- ### `atan2`: range and exact cosine / sine -/

theorem arctan_nonpos_of {t : ℝ} (ht : t ≤ 0) : arctan t ≤ 0 := by
  have := Real.arctan_strictMono.monotone ht
  rwa [Real.arctan_zero] at this

theorem arctan_pos_of {t : ℝ} (ht : 0 < t) : 0 < arctan t := by
  have := Real.arctan_strictMono ht
  rwa [Real.arctan_zero] at this

theorem atan2_mem (y x : ℝ) : -π < atan2 y x ∧ atan2 y x ≤ π := by
  have hpi := Real.pi_pos
  have h1 := Real.arctan_lt_pi_div_two (y / x)
  have h2 := Real.neg_pi_div_two_lt_arctan (y / x)
  unfold atan2
  split_ifs with hx hx2 hy hy2 hy3
  · constructor <;> linarith
  · have hyx : y / x ≤ 0 := div_nonpos_iff.2 (Or.inl ⟨hy, hx2.le⟩)
    have := arctan_nonpos_of hyx
    constructor <;> linarith
  · have hyx : 0 < y / x := div_pos_iff.2 (Or.inr ⟨by linarith, hx2⟩)
    have := arctan_pos_of hyx
    constructor <;> linarith
  · constructor <;> linarith
  · constructor <;> linarith
  · constructor <;> linarith

theorem sqrt_one_add_div_sq {x y : ℝ} (hx : x ≠ 0) :
    Real.sqrt (1 + (y / x) ^ 2) = Real.sqrt (x ^ 2 + y ^ 2) / |x| := by
  have hx2 : (0 : ℝ) < x ^ 2 := by positivity
  have h1 : 1 + (y / x) ^ 2 = (x ^ 2 + y ^ 2) / x ^ 2 := by
    field_simp
  rw [h1, Real.sqrt_div (by positivity), Real.sqrt_sq_eq_abs]

theorem cos_arctan_div {x y : ℝ} (hx : x ≠ 0) :
    Real.cos (arctan (y / x)) = |x| / Real.sqrt (x ^ 2 + y ^ 2) := by
  rw [Real.cos_arctan, sqrt_one_add_div_sq hx, one_div, inv_div]

theorem sin_arctan_div {x y : ℝ} (hx : x ≠ 0) :
    Real.sin (arctan (y / x)) = (y / x) * |x| / Real.sqrt (x ^ 2 + y ^ 2) := by
  rw [Real.sin_arctan, sqrt_one_add_div_sq hx, div_div_eq_mul_div]

theorem cos_atan2_mul (y x : ℝ) :
    Real.cos (atan2 y x) * Real.sqrt (x ^ 2 + y ^ 2) = x := by
  rcases lt_trichotomy x 0 with hx | hx | hx
  · have hxne : x ≠ 0 := hx.ne
    have hs : Real.sqrt (x ^ 2 + y ^ 2) ≠ 0 :=
      (Real.sqrt_pos.2 (by positivity)).ne'
    have habs : |x| = -x := abs_of_neg hx
    unfold atan2
    rw [if_neg (by linarith), if_pos hx]
    by_cases hy : 0 ≤ y
    · rw [if_pos hy, Real.cos_add_pi, cos_arctan_div hxne, habs]
      field_simp
    · rw [if_neg hy, Real.cos_sub_pi, cos_arctan_div hxne, habs]
      field_simp
  · subst hx
    unfold atan2
    rw [if_neg (by norm_num), if_neg (by norm_num)]
    rcases lt_trichotomy y 0 with hy | hy | hy
    · rw [if_neg (by linarith), if_pos hy]
      simp [Real.cos_pi_div_two]
    · subst hy
      simp
    · rw [if_pos hy]
      simp [Real.cos_pi_div_two]
  · have hxne : x ≠ 0 := hx.ne'
    have hs : Real.sqrt (x ^ 2 + y ^ 2) ≠ 0 :=
      (Real.sqrt_pos.2 (by positivity)).ne'
    have habs : |x| = x := abs_of_pos hx
    unfold atan2
    rw [if_pos hx, cos_arctan_div hxne, habs]
    field_simp

theorem sin_atan2_mul (y x : ℝ) :
    Real.sin (atan2 y x) * Real.sqrt (x ^ 2 + y ^ 2) = y := by
  rcases lt_trichotomy x 0 with hx | hx | hx
  · have hxne : x ≠ 0 := hx.ne
    have hs : Real.sqrt (x ^ 2 + y ^ 2) ≠ 0 :=
      (Real.sqrt_pos.2 (by positivity)).ne'
    have habs : |x| = -x := abs_of_neg hx
    unfold atan2
    rw [if_neg (by linarith), if_pos hx]
    by_cases hy : 0 ≤ y
    · rw [if_pos hy, Real.sin_add_pi, sin_arctan_div hxne, habs]
      field_simp
      ring
    · rw [if_neg hy, Real.sin_sub_pi, sin_arctan_div hxne, habs]
      field_simp
      ring
  · subst hx
    unfold atan2
    rw [if_neg (by norm_num), if_neg (by norm_num)]
    rcases lt_trichotomy y 0 with hy | hy | hy
    · rw [if_neg (by linarith), if_pos hy, Real.sin_neg, Real.sin_pi_div_two]
      have : (0 : ℝ) ^ 2 + y ^ 2 = y ^ 2 := by ring
      rw [this, Real.sqrt_sq_eq_abs, abs_of_neg hy]
      ring
    · subst hy
      simp
    · rw [if_pos hy, Real.sin_pi_div_two]
      have : (0 : ℝ) ^ 2 + y ^ 2 = y ^ 2 := by ring
      rw [this, Real.sqrt_sq_eq_abs, abs_of_pos hy]
      ring
  · have hxne : x ≠ 0 := hx.ne'
    have hs : Real.sqrt (x ^ 2 + y ^ 2) ≠ 0 :=
      (Real.sqrt_pos.2 (by positivity)).ne'
    have habs : |x| = x := abs_of_pos hx
    unfold atan2
    rw [if_pos hx, sin_arctan_div hxne, habs]
    field_simp
    try ring

theorem abs_cos_sub_cos_le (a b : ℝ) : |Real.cos a - Real.cos b| ≤ |a - b| := by
  rw [Real.cos_sub_cos]
  rw [abs_mul, abs_mul]
  have h1 : |Real.sin ((a - b) / 2)| ≤ |(a - b) / 2| := Real.abs_sin_le_abs
  have h2 : |Real.sin ((a + b) / 2)| ≤ 1 := Real.abs_sin_le_one _
  have h3 : |(-2 : ℝ)| = 2 := by norm_num
  rw [h3]
  calc 2 * |Real.sin ((a + b) / 2)| * |Real.sin ((a - b) / 2)|
      ≤ 2 * 1 * |(a - b) / 2| := by
        apply mul_le_mul _ h1 (abs_nonneg _) (by norm_num)
        calc 2 * |Real.sin ((a + b) / 2)| ≤ 2 * 1 := by linarith
        _ = 2 * 1 := rfl
    _ = |a - b| := by
        rw [abs_div, abs_two]
        ring

theorem abs_sin_sub_sin_le (a b : ℝ) : |Real.sin a - Real.sin b| ≤ |a - b| := by
  rw [Real.sin_sub_sin]
  rw [abs_mul, abs_mul]
  have h1 : |Real.sin ((a - b) / 2)| ≤ |(a - b) / 2| := Real.abs_sin_le_abs
  have h2 : |Real.cos ((a + b) / 2)| ≤ 1 := Real.abs_cos_le_one _
  have h3 : |(2 : ℝ)| = 2 := by norm_num
  rw [h3]
  calc 2 * |Real.sin ((a - b) / 2)| * |Real.cos ((a + b) / 2)|
      ≤ 2 * |(a - b) / 2| * 1 := by
        apply mul_le_mul _ h2 (abs_nonneg _) (by positivity)
        linarith
    _ = |a - b| := by
        rw [abs_div, abs_two]
        ring

/- ### Reduction of `mainPick` to its branches -/

theorem mainPick_wheel (st : WheelState) (u v : ℤ)
    (hm : st.colorModel ≠ ColorModel.NORMAL_MAP)
    (hd : Real.sqrt ((u : ℝ) * u + (v : ℝ) * v) ≤ st.wheelRadius) :
    mainPick st u v = wheelPick st u v (Real.sqrt ((u : ℝ) * u + (v : ℝ) * v)) := by
  simp only [mainPick]
  have hcap : ¬ (st.hasCapture = true ∧
      st.wheelRadius < Real.sqrt ((u : ℝ) * u + (v : ℝ) * v)) :=
    fun hc => absurd hd (not_le.2 hc.2)
  rw [if_neg hm, if_neg hcap, if_pos hd]

theorem mainPick_normal (st : WheelState) (u v : ℤ)
    (hm : st.colorModel = ColorModel.NORMAL_MAP)
    (hcond : st.hasCapture = false ∨
      Real.sqrt ((u : ℝ) * u + (v : ℝ) * v) ≤ st.wheelRadius) :
    mainPick st u v = normalPick st u v (Real.sqrt ((u : ℝ) * u + (v : ℝ) * v)) := by
  simp only [mainPick]
  have hcap : ¬ (st.hasCapture = true ∧
      st.wheelRadius < Real.sqrt ((u : ℝ) * u + (v : ℝ) * v)) := by
    rcases hcond with h | h
    · rintro ⟨hc, -⟩
      rw [h] at hc
      exact absurd hc (by simp)
    · rintro ⟨-, hlt⟩
      exact absurd h (not_le.2 hlt)
  rw [if_pos hm, if_neg hcap]

/- ### Integer-division helpers for the quantization paths -/

theorem floor_ediv_eq_floor_div (x : ℝ) {n : ℤ} (hn : 0 < n) :
    ⌊x⌋ / n = ⌊x / n⌋ := by
  have hq := Int.ediv_add_emod ⌊x⌋ n
  have hr0 : 0 ≤ ⌊x⌋ % n := Int.emod_nonneg ⌊x⌋ hn.ne'
  have hrn : ⌊x⌋ % n < n := Int.emod_lt_of_pos ⌊x⌋ hn
  have hnR : (0 : ℝ) < (n : ℝ) := by exact_mod_cast hn
  have hfl : (⌊x⌋ : ℝ) ≤ x := Int.floor_le x
  have hfu : x < ⌊x⌋ + 1 := Int.lt_floor_add_one x
  rw [eq_comm, Int.floor_eq_iff]
  constructor
  · rw [le_div_iff hnR]
    have h2 : ((n * (⌊x⌋ / n) : ℤ) : ℝ) ≤ ((⌊x⌋ : ℤ) : ℝ) := by
      exact_mod_cast (by linarith : n * (⌊x⌋ / n) ≤ ⌊x⌋)
    push_cast at h2 ⊢
    linarith
  · rw [div_lt_iff hnR]
    have h2 : ((⌊x⌋ : ℤ) : ℝ) + 1 ≤ ((n * (⌊x⌋ / n + 1) : ℤ) : ℝ) := by
      have e1 : n * (⌊x⌋ / n + 1) = n * (⌊x⌋ / n) + n := by ring
      exact_mod_cast (by linarith : ⌊x⌋ + 1 ≤ n * (⌊x⌋ / n + 1))
    push_cast at h2 ⊢
    linarith

/- ### Bounds on the truncated angle -/

theorem trunc_mem_of_mem {x : ℝ} (h1 : -180 < x) (h2 : x ≤ 180) :
    -179 ≤ trunc x ∧ trunc x ≤ 180 := by
  constructor
  · by_cases h0 : 0 ≤ x
    · rw [trunc_eq_floor h0]
      have := Int.floor_nonneg.2 h0
      omega
    · unfold trunc
      rw [if_neg h0]
      have hc := Int.le_ceil x
      have : (-180 : ℝ) < (⌈x⌉ : ℤ) := lt_of_lt_of_le h1 hc
      have : (-180 : ℤ) < ⌈x⌉ := by exact_mod_cast this
      omega
  · by_cases h0 : 0 ≤ x
    · exact trunc_le_of_le (by exact_mod_cast h2) h0
    · unfold trunc
      rw [if_neg h0]
      have : ⌈x⌉ ≤ 0 := Int.ceil_le.2 (by push_cast; linarith)
      omega

theorem angle_trunc_mem (u v : ℤ) :
    -179 ≤ trunc (180 * atan2 (-(v : ℝ)) (u : ℝ) / π) ∧
    trunc (180 * atan2 (-(v : ℝ)) (u : ℝ) / π) ≤ 180 := by
  obtain ⟨hlo, hhi⟩ := atan2_mem (-(v : ℝ)) (u : ℝ)
  have hpi := Real.pi_pos
  apply trunc_mem_of_mem
  · rw [lt_div_iff hpi]
    nlinarith
  · rw [div_le_iff hpi]
    nlinarith

/- ### Discrete saturation quantization (C4) -/

/-- Claim C4: with discrete mode on, for every pixel inside the wheel that
does not hit a harmony swatch, the saturation returned by
`getMainAreaColor` equals `floor(120·d/radius / 20)·20 / 100` clamped to
`[0, 1]`, and is a multiple of 20 percent within `[0, 100]`. -/
theorem c4_discrete_saturation (st : WheelState) (pu umax pv vmax u v : ℤ)
    (hu : u = pu - Int.tdiv umax 2) (hv : v = pv - Int.tdiv vmax 2)
    (hdisc : st.discrete = true)
    (hmodel : st.colorModel ≠ ColorModel.NORMAL_MAP)
    (hr : 0 < st.wheelRadius)
    (hns : st.color.getAlpha ≤ 0 ∨ findSwatch st umax vmax pu pv = none)
    (hd : Real.sqrt ((u : ℝ) * u + (v : ℝ) * v) ≤ st.wheelRadius) :
    (getMainAreaColor st pu umax pv vmax).1.getHsvSaturation =
      clampR (((⌊120 * Real.sqrt ((u : ℝ) * u + (v : ℝ) * v) /
        st.wheelRadius / 20⌋ * 20 : ℤ) : ℝ) / 100) 0 1 ∧
    ∃ n : ℕ, n ≤ 5 ∧
      (getMainAreaColor st pu umax pv vmax).1.getHsvSaturation = (n : ℝ) / 5 := by
  subst hu
  subst hv
  rw [getMainAreaColor_eq_mainPick st pu umax pv vmax hns]
  simp only
  rw [mainPick_wheel st _ _ hmodel hd]
  have hd0 : (0 : ℝ) ≤ Real.sqrt ((((pu - Int.tdiv umax 2 : ℤ)) : ℝ) *
      ((pu - Int.tdiv umax 2 : ℤ) : ℝ) + (((pv - Int.tdiv vmax 2 : ℤ)) : ℝ) *
      ((pv - Int.tdiv vmax 2 : ℤ) : ℝ)) := Real.sqrt_nonneg _
  set d := Real.sqrt ((((pu - Int.tdiv umax 2 : ℤ)) : ℝ) *
      ((pu - Int.tdiv umax 2 : ℤ) : ℝ) + (((pv - Int.tdiv vmax 2 : ℤ)) : ℝ) *
      ((pv - Int.tdiv vmax 2 : ℤ) : ℝ)) with hddef
  simp only [wheelPick, hdisc, if_true, Color.getHsvSaturation]
  have h0 : (0 : ℝ) ≤ 120 * d / st.wheelRadius := by positivity
  have htr : trunc (120 * d / st.wheelRadius) = ⌊120 * d / st.wheelRadius⌋ :=
    trunc_eq_floor h0
  have htd : (⌊120 * d / st.wheelRadius⌋).tdiv 20 =
      ⌊120 * d / st.wheelRadius⌋ / 20 :=
    Int.tdiv_eq_ediv (Int.floor_nonneg.2 h0) (by norm_num)
  have hdd : ⌊120 * d / st.wheelRadius⌋ / 20 = ⌊120 * d / st.wheelRadius / 20⌋ :=
    floor_ediv_eq_floor_div _ (by norm_num)
  rw [htr, htd, hdd]
  refine ⟨rfl, ?_⟩
  have hub : 120 * d / st.wheelRadius ≤ 120 := by
    rw [div_le_iff hr]
    nlinarith
  have hk0 : 0 ≤ ⌊120 * d / st.wheelRadius / 20⌋ := Int.floor_nonneg.2 (by positivity)
  have hk6 : ⌊120 * d / st.wheelRadius / 20⌋ ≤ 6 := by
    have : (120 * d / st.wheelRadius / 20 : ℝ) ≤ ((6 : ℤ) : ℝ) := by
      push_cast
      linarith
    exact (Int.floor_le_floor this).trans_eq (Int.floor_intCast 6)
  set k := ⌊120 * d / st.wheelRadius / 20⌋ with hkdef
  by_cases hk5 : k ≤ 5
  · refine ⟨k.toNat, by omega, ?_⟩
    have hkR : ((k : ℝ)) ≤ 5 := by exact_mod_cast hk5
    have hkR0 : (0 : ℝ) ≤ (k : ℝ) := by exact_mod_cast hk0
    have hle : ((k * 20 : ℤ) : ℝ) / 100 ≤ 1 := by
      push_cast
      linarith
    have hge : (0 : ℝ) ≤ ((k * 20 : ℤ) : ℝ) / 100 := by
      push_cast
      linarith
    rw [clampR_of_mem hge hle]
    have hcast : ((k.toNat : ℕ) : ℝ) = (k : ℝ) := by
      exact_mod_cast Int.toNat_of_nonneg hk0
    push_cast
    rw [hcast]
    ring
  · have hk6' : k = 6 := by omega
    refine ⟨5, by omega, ?_⟩
    rw [hk6']
    norm_num [clampR]

/-- Witness for C4 at the pixel offset (3, 4) with wheel radius 10. -/
theorem c4_discrete_saturation_witness :
    (getMainAreaColor
        ⟨Color.hsv 0 0 1 0, ColorModel.STANDARD, 0, true, 10, false, 255⟩
        3 0 4 0).1.getHsvSaturation =
      clampR (((⌊120 * Real.sqrt (((3 : ℤ) : ℝ) * ((3 : ℤ) : ℝ) +
        ((4 : ℤ) : ℝ) * ((4 : ℤ) : ℝ)) / (10 : ℝ) / 20⌋ * 20 : ℤ) : ℝ) / 100) 0 1 ∧
    ∃ n : ℕ, n ≤ 5 ∧
      (getMainAreaColor
          ⟨Color.hsv 0 0 1 0, ColorModel.STANDARD, 0, true, 10, false, 255⟩
          3 0 4 0).1.getHsvSaturation = (n : ℝ) / 5 := by
  have hsq : Real.sqrt (((3 : ℤ) : ℝ) * ((3 : ℤ) : ℝ) +
      ((4 : ℤ) : ℝ) * ((4 : ℤ) : ℝ)) ≤ (10 : ℝ) := by
    rw [show (((3 : ℤ) : ℝ) * ((3 : ℤ) : ℝ) + ((4 : ℤ) : ℝ) * ((4 : ℤ) : ℝ)) =
      (25 : ℝ) by norm_num]
    rw [Real.sqrt_le_left (by norm_num)]
    norm_num
  have := c4_discrete_saturation
    ⟨Color.hsv 0 0 1 0, ColorModel.STANDARD, 0, true, 10, false, 255⟩
    3 0 4 0 3 4 (by decide) (by decide) rfl (by decide) (by norm_num)
    (Or.inl (by decide)) hsq
  exact this

/- ### Discrete hue quantization (C3) -/

theorem disc_hue_spec {k : ℤ} (h1 : -179 ≤ k) (h2 : k ≤ 180) :
    0 ≤ (((k + 180 + 180 + 30) + 15).tdiv 30 * 30).tmod 360 ∧
    (((k + 180 + 180 + 30) + 15).tdiv 30 * 30).tmod 360 < 360 ∧
    (((k + 180 + 180 + 30) + 15).tdiv 30 * 30).tmod 360 % 30 = 0 := by
  have e1 : (k + 180 + 180 + 30) + 15 = k + 405 := by ring
  rw [e1, Int.tdiv_eq_ediv (by omega) (by norm_num)]
  have hq0 : 0 ≤ (k + 405) / 30 := Int.ediv_nonneg (by omega) (by norm_num)
  rw [Int.tmod_eq_emod (by omega) (by norm_num)]
  omega

theorem cont_hue_spec {k : ℤ} (h1 : -179 ≤ k) (h2 : k ≤ 180) :
    0 ≤ (k + 180 + 180 + 30).tmod 360 ∧ (k + 180 + 180 + 30).tmod 360 < 360 ∧
    ∃ c : ℤ, (k + 180 + 180 + 30).tmod 360 - 30 = k + 360 * c := by
  rw [Int.tmod_eq_emod (by omega) (by norm_num)]
  refine ⟨by omega, by omega, 1 - (k + 180 + 180 + 30) / 360, by omega⟩

theorem convRYB_mult30_eval {m : ℤ} (hm0 : 0 ≤ m) (hm1 : m < 360)
    (hm30 : m % 30 = 0) :
    ∃ t : ℤ, convertHueAngle ColorModel.RYB (m : ℝ) 1 = (t : ℝ) ∧
      0 ≤ t ∧ t < 360 := by
  obtain ⟨s, rfl⟩ : ∃ s, m = 30 * s := ⟨m / 30, by omega⟩
  have hs0 : 0 ≤ s := by omega
  have hs11 : s ≤ 11 := by omega
  interval_cases s
  · exact ⟨0, by push_cast; rw [convertHueAngle_RYB_fwd]; norm_num, by norm_num,
      by norm_num⟩
  · exact ⟨15, by push_cast; rw [convertHueAngle_RYB_fwd]; norm_num, by norm_num,
      by norm_num⟩
  · exact ⟨30, by push_cast; rw [convertHueAngle_RYB_fwd]; norm_num, by norm_num,
      by norm_num⟩
  · exact ⟨45, by push_cast; rw [convertHueAngle_RYB_fwd]; norm_num, by norm_num,
      by norm_num⟩
  · exact ⟨60, by push_cast; rw [convertHueAngle_RYB_fwd]; norm_num, by norm_num,
      by norm_num⟩
  · exact ⟨90, by push_cast; rw [convertHueAngle_RYB_fwd]; norm_num, by norm_num,
      by norm_num⟩
  · exact ⟨120, by push_cast; rw [convertHueAngle_RYB_fwd]; norm_num, by norm_num,
      by norm_num⟩
  · exact ⟨180, by push_cast; rw [convertHueAngle_RYB_fwd]; norm_num, by norm_num,
      by norm_num⟩
  · exact ⟨240, by push_cast; rw [convertHueAngle_RYB_fwd]; norm_num, by norm_num,
      by norm_num⟩
  · exact ⟨270, by push_cast; rw [convertHueAngle_RYB_fwd]; norm_num, by norm_num,
      by norm_num⟩
  · exact ⟨300, by push_cast; rw [convertHueAngle_RYB_fwd]; norm_num, by norm_num,
      by norm_num⟩
  · exact ⟨330, by push_cast; rw [convertHueAngle_RYB_fwd]; norm_num, by norm_num,
      by norm_num⟩

/-- Claim C3 (amended): with discrete mode on, for every in-wheel pixel not
hitting a harmony swatch, the hue returned by `getMainAreaColor` is
`convertHueAngle(m, 1)` of a multiple `m` of 30 in `[0, 360)`; under
STANDARD it equals `m` itself (a multiple of 30), while under RYB the
final hue warp can break the 30-degree grid. -/
theorem c3_discrete_hue (st : WheelState) (pu umax pv vmax u v : ℤ)
    (hu : u = pu - Int.tdiv umax 2) (hv : v = pv - Int.tdiv vmax 2)
    (hdisc : st.discrete = true)
    (hmodel : st.colorModel = ColorModel.STANDARD ∨
      st.colorModel = ColorModel.RYB)
    (hr : 0 < st.wheelRadius)
    (hns : st.color.getAlpha ≤ 0 ∨ findSwatch st umax vmax pu pv = none)
    (hd : Real.sqrt ((u : ℝ) * u + (v : ℝ) * v) ≤ st.wheelRadius) :
    ∃ m : ℤ, m % 30 = 0 ∧ 0 ≤ m ∧ m < 360 ∧
      (getMainAreaColor st pu umax pv vmax).1.getHsvHue =
        convertHueAngle st.colorModel (m : ℝ) 1 ∧
      (st.colorModel = ColorModel.STANDARD →
        (getMainAreaColor st pu umax pv vmax).1.getHsvHue = (m : ℝ)) := by
  have hnm : st.colorModel ≠ ColorModel.NORMAL_MAP := by
    rcases hmodel with h | h <;> simp [h]
  subst hu
  subst hv
  rw [getMainAreaColor_eq_mainPick st pu umax pv vmax hns]
  simp only
  rw [mainPick_wheel st _ _ hnm hd]
  simp only [wheelPick, hdisc, if_true, Color.getHsvHue]
  obtain ⟨hk1, hk2⟩ := angle_trunc_mem (pu - Int.tdiv umax 2) (pv - Int.tdiv vmax 2)
  obtain ⟨hs0, hs1, hs30⟩ := disc_hue_spec hk1 hk2
  refine ⟨(((trunc (180 * atan2 (-((pv - Int.tdiv vmax 2 : ℤ) : ℝ))
      ((pu - Int.tdiv umax 2 : ℤ) : ℝ) / π) + 180 + 180 + 30) + 15).tdiv 30 *
      30).tmod 360, hs30, hs0, hs1, ?_, ?_⟩
  · rcases hmodel with hmod | hmod
    · rw [hmod]
      rw [convertHueAngle_other (by decide)]
      rw [trunc_intCast, clampI_of_mem hs0 (by omega)]
    · rw [hmod]
      obtain ⟨t, ht, ht0, ht360⟩ := convRYB_mult30_eval hs0 hs1 hs30
      rw [ht, trunc_intCast, clampI_of_mem ht0 (by omega)]
  · intro hstd
    rw [hstd]
    rw [convertHueAngle_other (by decide)]
    rw [trunc_intCast, clampI_of_mem hs0 (by omega)]

/-- Counterexample to C3 as stated: under the RYB model with discrete mode
on, the pixel offset (1, -1) (45 degrees) with wheel radius 50 yields the
hue 45, which is not a multiple of 30: the quantized wheel hue 90 passes
through the RYB-to-RGB warp after quantization. -/
theorem c3_discrete_hue_counterexample :
    (getMainAreaColor ⟨Color.hsv 0 0 1 0, ColorModel.RYB, 0, true, 50, false, 255⟩
        1 0 (-1) 0).1.getHsvHue = 45 ∧
    ¬ ∃ m : ℤ, (45 : ℝ) = 30 * (m : ℝ) := by
  constructor
  · rw [getMainAreaColor_eq_mainPick _ 1 0 (-1) 0 (Or.inl (by decide))]
    simp only
    have e_u : (1 - Int.tdiv 0 2 : ℤ) = 1 := by decide
    have e_v : (-1 - Int.tdiv 0 2 : ℤ) = -1 := by decide
    rw [e_u, e_v]
    have hd2 : Real.sqrt (((1 : ℤ) : ℝ) * ((1 : ℤ) : ℝ) +
        ((-1 : ℤ) : ℝ) * ((-1 : ℤ) : ℝ)) ≤
        (⟨Color.hsv 0 0 1 0, ColorModel.RYB, 0, true, 50, false, 255⟩ :
          WheelState).wheelRadius := by
      rw [show (((1 : ℤ) : ℝ) * ((1 : ℤ) : ℝ) +
        ((-1 : ℤ) : ℝ) * ((-1 : ℤ) : ℝ)) = 2 by norm_num]
      show Real.sqrt 2 ≤ 50
      rw [Real.sqrt_le_left (by norm_num)]
      norm_num
    rw [mainPick_wheel _ 1 (-1) (by decide) hd2]
    simp only [wheelPick, Color.getHsvHue]
    have ha : atan2 (-((-1 : ℤ) : ℝ)) ((1 : ℤ) : ℝ) = π / 4 := by
      have h1 : -((-1 : ℤ) : ℝ) = 1 := by norm_num
      have h2 : ((1 : ℤ) : ℝ) = 1 := by norm_num
      rw [h1, h2]
      unfold atan2
      rw [if_pos one_pos]
      norm_num [Real.arctan_one]
    rw [ha]
    have hk45 : trunc (180 * (π / 4) / π) = 45 := by
      have hx : 180 * (π / 4) / π = 45 := by
        field_simp
        ring
      rw [hx, show (45 : ℝ) = ((45 : ℤ) : ℝ) by norm_num, trunc_intCast]
    rw [hk45]
    simp only [show (⟨Color.hsv 0 0 1 0, ColorModel.RYB, 0, true, 50, false,
      255⟩ : WheelState).discrete = true from rfl, if_true]
    rw [show ((((45 : ℤ) + 180 + 180 + 30) + 15).tdiv 30 * 30).tmod 360 =
      (90 : ℤ) from by decide]
    have hconv : convertHueAngle ColorModel.RYB ((90 : ℤ) : ℝ) 1 =
        ((45 : ℤ) : ℝ) := by
      push_cast
      rw [convertHueAngle_RYB_fwd]
      norm_num
    rw [hconv, trunc_intCast, clampI_of_mem (by norm_num) (by norm_num)]
    norm_num
  · rintro ⟨m, hm⟩
    have : (45 : ℤ) = 30 * m := by exact_mod_cast hm
    omega

/-- Witness for C3 at the pixel offset (1, -1), radius 50, STANDARD model. -/
theorem c3_discrete_hue_witness :
    ∃ m : ℤ, m % 30 = 0 ∧ 0 ≤ m ∧ m < 360 ∧
      (getMainAreaColor
          ⟨Color.hsv 0 0 1 0, ColorModel.STANDARD, 0, true, 50, false, 255⟩
          1 0 (-1) 0).1.getHsvHue =
        convertHueAngle ColorModel.STANDARD (m : ℝ) 1 ∧
      (ColorModel.STANDARD = ColorModel.STANDARD →
        (getMainAreaColor
            ⟨Color.hsv 0 0 1 0, ColorModel.STANDARD, 0, true, 50, false, 255⟩
            1 0 (-1) 0).1.getHsvHue = (m : ℝ)) := by
  have hd2 : Real.sqrt (((1 : ℤ) : ℝ) * ((1 : ℤ) : ℝ) +
      ((-1 : ℤ) : ℝ) * ((-1 : ℤ) : ℝ)) ≤ (50 : ℝ) := by
    rw [show (((1 : ℤ) : ℝ) * ((1 : ℤ) : ℝ) +
      ((-1 : ℤ) : ℝ) * ((-1 : ℤ) : ℝ)) = 2 by norm_num]
    rw [Real.sqrt_le_left (by norm_num)]
    norm_num
  exact c3_discrete_hue
    ⟨Color.hsv 0 0 1 0, ColorModel.STANDARD, 0, true, 50, false, 255⟩
    1 0 (-1) 0 1 (-1) (by decide) (by decide) rfl (Or.inl rfl) (by norm_num)
    (Or.inl (by decide)) hd2

/- ### NORMAL_MAP picking (C5) -/

theorem trunc_zero_eq : trunc (0 : ℝ) = 0 := by
  rw [show (0 : ℝ) = ((0 : ℤ) : ℝ) by norm_num, trunc_intCast]

theorem trunc_onetwentyeight : trunc (128 : ℝ) = 128 := by
  rw [show (128 : ℝ) = ((128 : ℤ) : ℝ) by norm_num, trunc_intCast]

/-- Counterexample to C5 as stated: in NORMAL_MAP mode a pixel outside the
wheel (offset (45, 45), distance about 63.6 > radius 50, no capture) that
falls inside the harmony swatch rectangle is answered with the harmony
color, not the fixed neutral normal (128, 128, 255): the swatch hit test
runs regardless of the color model. -/
theorem c5_normal_map_counterexample :
    (⟨Color.hsv 0 0.5 0.5 255, ColorModel.NORMAL_MAP, 0, false, 50, false, 255⟩ :
      WheelState).hasCapture = false ∧
    (⟨Color.hsv 0 0.5 0.5 255, ColorModel.NORMAL_MAP, 0, false, 50, false, 255⟩ :
      WheelState).wheelRadius <
      Real.sqrt (((45 : ℤ) : ℝ) * ((45 : ℤ) : ℝ) + ((45 : ℤ) : ℝ) * ((45 : ℤ) : ℝ)) ∧
    (95 - Int.tdiv 100 2 : ℤ) = 45 ∧
    (getMainAreaColor
        ⟨Color.hsv 0 0.5 0.5 255, ColorModel.NORMAL_MAP, 0, false, 50, false, 255⟩
        95 100 95 100).1 = Color.hsv 0 0.5 0.5 255 ∧
    (Color.hsv 0 0.5 0.5 255 ≠ Color.rgb 128 128 255 255) := by
  refine ⟨rfl, ?_, by decide, ?_, fun h => Color.noConfusion h⟩
  · show (50 : ℝ) < Real.sqrt _
    rw [show (((45 : ℤ) : ℝ) * ((45 : ℤ) : ℝ) + ((45 : ℤ) : ℝ) * ((45 : ℤ) : ℝ)) =
      4050 by norm_num]
    exact (Real.lt_sqrt (by norm_num)).2 (by norm_num)
  · have hfs : findSwatch
        ⟨Color.hsv 0 0.5 0.5 255, ColorModel.NORMAL_MAP, 0, false, 50, false, 255⟩
        100 100 95 95 = some 0 := by decide
    simp only [getMainAreaColor, Color.getAlpha, if_pos (by norm_num : (0:ℤ) < 255),
      hfs]
    have hc : getColorInHarmony
        ⟨Color.hsv 0 0.5 0.5 255, ColorModel.NORMAL_MAP, 0, false, 50, false, 255⟩
        ((0 : ℕ) : ℤ) = Color.hsv 0 0.5 0.5 255 := by
      simp only [getColorInHarmony, Color.getHsvHue, Color.getHsvSaturation,
        Color.getHsvValue, Nat.cast_zero,
        convertHueAngle_other (by decide : ColorModel.NORMAL_MAP ≠ ColorModel.RYB),
        show (clampI (0 : ℤ) 0 7).toNat = 0 from by decide,
        show (clampI (0 : ℤ) 0 (harmoniesN 0 - 1)).toNat = 0 from by decide,
        show harmoniesHues 0 0 = 0 from by decide,
        show harmoniesSats 0 0 = 100 from by decide]
      rw [show ((0 : ℝ) + ((0 : ℤ) : ℝ)) = 0 by norm_num]
      rw [fmod_eq_self (by norm_num) (by norm_num) (by norm_num)]
      rw [show ((0.5 : ℝ) * ((100 : ℤ) : ℝ) / 100) = 0.5 by norm_num]
      rw [clampR_of_mem (by norm_num) (by norm_num)]
    rw [hc]
    simp only [Color.getHsvHue, Color.getHsvSaturation, Color.getHsvValue,
      convertHueAngle_other (by decide : ColorModel.NORMAL_MAP ≠ ColorModel.RYB)]

/-- Claim C5 (amended): in NORMAL_MAP mode, provided the position does not
hit a harmony swatch (the hit test runs regardless of the model): a pixel
with `d > radius` and no drag capture yields exactly RGB (128, 128, 255);
a pixel with `d = 0` yields exactly RGB (128, 128, 255); and every
in-wheel pixel yields channels with `r, g ∈ [0, 255]` and
`b ∈ [128, 255]`. -/
theorem c5_normal_map (st : WheelState) (pu umax pv vmax u v : ℤ)
    (hu : u = pu - Int.tdiv umax 2) (hv : v = pv - Int.tdiv vmax 2)
    (hm : st.colorModel = ColorModel.NORMAL_MAP)
    (hr : 0 < st.wheelRadius)
    (hns : st.color.getAlpha ≤ 0 ∨ findSwatch st umax vmax pu pv = none) :
    (st.hasCapture = false →
      st.wheelRadius < Real.sqrt ((u : ℝ) * u + (v : ℝ) * v) →
      (getMainAreaColor st pu umax pv vmax).1 = Color.rgb 128 128 255 255) ∧
    (Real.sqrt ((u : ℝ) * u + (v : ℝ) * v) = 0 →
      (getMainAreaColor st pu umax pv vmax).1 = Color.rgb 128 128 255 255) ∧
    (Real.sqrt ((u : ℝ) * u + (v : ℝ) * v) ≤ st.wheelRadius →
      ∃ r g b : ℤ, (getMainAreaColor st pu umax pv vmax).1 = Color.rgb r g b 255 ∧
        0 ≤ r ∧ r ≤ 255 ∧ 0 ≤ g ∧ g ≤ 255 ∧ 128 ≤ b ∧ b ≤ 255) := by
  subst hu
  subst hv
  rw [getMainAreaColor_eq_mainPick st pu umax pv vmax hns]
  simp only
  refine ⟨?_, ?_, ?_⟩
  · intro hcap hout
    rw [mainPick_normal st _ _ hm (Or.inl hcap)]
    simp only [normalPick]
    rw [if_neg (not_le.2 hout)]
  · intro hd0
    rw [mainPick_normal st _ _ hm (Or.inr (by rw [hd0]; exact hr.le))]
    simp only [normalPick]
    rw [if_pos (by rw [hd0]; exact hr.le)]
    rw [hd0]
    have hdi0 : trunc (128 * (0 : ℝ) / st.wheelRadius) = 0 := by
      rw [show (128 * (0 : ℝ) / st.wheelRadius) = 0 by ring]
      exact trunc_zero_eq
    rw [hdi0]
    have hdiv : ((0 : ℤ).tdiv 32) * 32 = 0 := by decide
    by_cases hdisc : st.discrete = true
    · rw [if_pos hdisc, if_pos hdisc, hdiv]
      rw [show (((0 : ℤ) : ℝ)) = (0 : ℝ) by norm_num]
      rw [show ((128 : ℝ) + 0 * Real.cos (π * ((((trunc (180 *
        atan2 (-((pv - Int.tdiv vmax 2 : ℤ) : ℝ))
        ((pu - Int.tdiv umax 2 : ℤ) : ℝ) / π) + 360 + 15).tdiv 30) * 30 : ℤ) : ℝ) /
        180)) = 128 by ring]
      rw [show ((128 : ℝ) + 0 * Real.sin (π * ((((trunc (180 *
        atan2 (-((pv - Int.tdiv vmax 2 : ℤ) : ℝ))
        ((pu - Int.tdiv umax 2 : ℤ) : ℝ) / π) + 360 + 15).tdiv 30) * 30 : ℤ) : ℝ) /
        180)) = 128 by ring]
      rw [trunc_onetwentyeight]
      rw [show clampI 128 0 255 = 128 from by decide,
        show (255 : ℤ) - 0 = 255 from by decide,
        show clampI 255 128 255 = 255 from by decide]
    · rw [if_neg hdisc, if_neg hdisc]
      rw [show (((0 : ℤ) : ℝ)) = (0 : ℝ) by norm_num]
      rw [show ((128 : ℝ) + 0 * Real.cos (atan2
        (-((pv - Int.tdiv vmax 2 : ℤ) : ℝ))
        ((pu - Int.tdiv umax 2 : ℤ) : ℝ))) = 128 by ring]
      rw [show ((128 : ℝ) + 0 * Real.sin (atan2
        (-((pv - Int.tdiv vmax 2 : ℤ) : ℝ))
        ((pu - Int.tdiv umax 2 : ℤ) : ℝ))) = 128 by ring]
      rw [trunc_onetwentyeight]
      rw [show clampI 128 0 255 = 128 from by decide,
        show (255 : ℤ) - 0 = 255 from by decide,
        show clampI 255 128 255 = 255 from by decide]
  · intro hin
    rw [mainPick_normal st _ _ hm (Or.inr hin)]
    simp only [normalPick]
    rw [if_pos hin]
    refine ⟨_, _, _, rfl, (clampI_mem (by norm_num)).1, (clampI_mem (by norm_num)).2,
      (clampI_mem (by norm_num)).1, (clampI_mem (by norm_num)).2,
      (clampI_mem (by norm_num)).1, (clampI_mem (by norm_num)).2⟩

/-- Witness for C5 at the center pixel with radius 50 and transparent
current color. -/
theorem c5_normal_map_witness :
    (((⟨Color.hsv 0 0 1 0, ColorModel.NORMAL_MAP, 0, false, 50, false, 255⟩ :
        WheelState).hasCapture = false →
      (⟨Color.hsv 0 0 1 0, ColorModel.NORMAL_MAP, 0, false, 50, false, 255⟩ :
        WheelState).wheelRadius <
        Real.sqrt (((0 : ℤ) : ℝ) * ((0 : ℤ) : ℝ) + ((0 : ℤ) : ℝ) * ((0 : ℤ) : ℝ)) →
      (getMainAreaColor
          ⟨Color.hsv 0 0 1 0, ColorModel.NORMAL_MAP, 0, false, 50, false, 255⟩
          0 0 0 0).1 = Color.rgb 128 128 255 255) ∧
    (Real.sqrt (((0 : ℤ) : ℝ) * ((0 : ℤ) : ℝ) + ((0 : ℤ) : ℝ) * ((0 : ℤ) : ℝ)) = 0 →
      (getMainAreaColor
          ⟨Color.hsv 0 0 1 0, ColorModel.NORMAL_MAP, 0, false, 50, false, 255⟩
          0 0 0 0).1 = Color.rgb 128 128 255 255) ∧
    (Real.sqrt (((0 : ℤ) : ℝ) * ((0 : ℤ) : ℝ) + ((0 : ℤ) : ℝ) * ((0 : ℤ) : ℝ)) ≤
        (⟨Color.hsv 0 0 1 0, ColorModel.NORMAL_MAP, 0, false, 50, false, 255⟩ :
          WheelState).wheelRadius →
      ∃ r g b : ℤ,
        (getMainAreaColor
            ⟨Color.hsv 0 0 1 0, ColorModel.NORMAL_MAP, 0, false, 50, false, 255⟩
            0 0 0 0).1 = Color.rgb r g b 255 ∧
        0 ≤ r ∧ r ≤ 255 ∧ 0 ≤ g ∧ g ≤ 255 ∧ 128 ≤ b ∧ b ≤ 255)) :=
  c5_normal_map
    ⟨Color.hsv 0 0 1 0, ColorModel.NORMAL_MAP, 0, false, 50, false, 255⟩
    0 0 0 0 0 0 (by decide) (by decide) rfl (by norm_num) (Or.inl (by decide))

/- ### Round trip of picking and indicator placement (C1) -/

theorem clampR_mem {x lo hi : ℝ} (h : lo ≤ hi) :
    lo ≤ clampR x lo hi ∧ clampR x lo hi ≤ hi := by
  unfold clampR
  constructor
  · exact le_max_left _ _
  · exact max_le h (min_le_right _ _)

theorem harmoniesHues_col0 (i : ℕ) : harmoniesHues i 0 = 0 := by
  unfold harmoniesHues
  repeat' split
  all_goals omega

theorem harmoniesSats_col0 {i : ℕ} (hi : i ≤ 7) : harmoniesSats i 0 = 100 := by
  interval_cases i <;> decide

/-- Under STANDARD or RYB, storing the displayed hue of wheel hue `m`
(`int`-truncated and clamped, as `getMainAreaColor` does) and warping it
back with `convertHueAngle(·, -1)` (as the indicator path does) recovers
`m` up to 1 degree, staying in `[0, 360)`. -/
theorem convHue_trunc_roundtrip {model : ColorModel}
    (hmod : model = ColorModel.STANDARD ∨ model = ColorModel.RYB) {m : ℤ}
    (hm0 : 0 ≤ m) (hm1 : m < 360) :
    0 ≤ convertHueAngle model
        ((clampI (trunc (convertHueAngle model (m : ℝ) 1)) 0 360 : ℤ) : ℝ) (-1) ∧
    convertHueAngle model
        ((clampI (trunc (convertHueAngle model (m : ℝ) 1)) 0 360 : ℤ) : ℝ) (-1) < 360 ∧
    (m : ℝ) - 1 ≤ convertHueAngle model
        ((clampI (trunc (convertHueAngle model (m : ℝ) 1)) 0 360 : ℤ) : ℝ) (-1) ∧
    convertHueAngle model
        ((clampI (trunc (convertHueAngle model (m : ℝ) 1)) 0 360 : ℤ) : ℝ) (-1) ≤
      (m : ℝ) := by
  have hmR0 : (0 : ℝ) ≤ (m : ℝ) := by exact_mod_cast hm0
  have hmR1 : (m : ℝ) < 360 := by exact_mod_cast hm1
  rcases hmod with hmod | hmod
  · subst hmod
    simp only [convertHueAngle_other
      (show ColorModel.STANDARD ≠ ColorModel.RYB from by decide)]
    rw [trunc_intCast, clampI_of_mem hm0 (by omega)]
    refine ⟨hmR0, hmR1, by linarith, le_refl _⟩
  · subst hmod
    by_cases c1 : m < 120
    · have hw : convertHueAngle ColorModel.RYB (m : ℝ) 1 = (m : ℝ) / 2 :=
        convFwd_piece1 hmR0 (by exact_mod_cast c1)
      have htr : trunc ((m : ℝ) / 2) = m / 2 := by
        rw [trunc_eq_floor (by positivity)]
        rw [show ((m : ℝ) / 2) = ((m : ℤ) : ℝ) / ((2 : ℤ) : ℝ) by norm_num]
        rw [← floor_ediv_eq_floor_div _ (by norm_num : (0:ℤ) < 2), Int.floor_intCast]
      have ht0 : 0 ≤ m / 2 := by omega
      have ht60 : m / 2 < 60 := by omega
      rw [hw, htr, clampI_of_mem ht0 (by omega)]
      rw [convInv_piece1 (by exact_mod_cast ht0) (by exact_mod_cast ht60)]
      have h2 : 2 * ((m / 2 : ℤ) : ℝ) = ((2 * (m / 2) : ℤ) : ℝ) := by push_cast; ring
      rw [h2]
      have e1 : m - 1 ≤ 2 * (m / 2) := by omega
      have e2 : 2 * (m / 2) ≤ m := by omega
      refine ⟨by exact_mod_cast (by omega : (0:ℤ) ≤ 2 * (m / 2)),
        by exact_mod_cast (by omega : 2 * (m / 2) < 360),
        ?_, by exact_mod_cast e2⟩
      have : ((m - 1 : ℤ) : ℝ) ≤ ((2 * (m / 2) : ℤ) : ℝ) := by exact_mod_cast e1
      push_cast at this
      linarith
    · by_cases c2 : m < 180
      · have hw : convertHueAngle ColorModel.RYB (m : ℝ) 1 = (m : ℝ) - 60 :=
          convFwd_piece2 (by exact_mod_cast not_lt.1 c1) (by exact_mod_cast c2)
        have hcast : (m : ℝ) - 60 = ((m - 60 : ℤ) : ℝ) := by push_cast; ring
        rw [hw, hcast, trunc_intCast, clampI_of_mem (by omega) (by omega)]
        rw [convInv_piece2 (by exact_mod_cast (by omega : (60:ℤ) ≤ m - 60))
          (by exact_mod_cast (by omega : m - 60 < 120))]
        push_cast
        refine ⟨by linarith, by linarith, by linarith, by linarith⟩
      · by_cases c3 : m < 240
        · have hw : convertHueAngle ColorModel.RYB (m : ℝ) 1 =
              120 + 2 * ((m : ℝ) - 180) :=
            convFwd_piece3 (by exact_mod_cast not_lt.1 c2) (by exact_mod_cast c3)
          have hcast : (120 : ℝ) + 2 * ((m : ℝ) - 180) =
              ((120 + 2 * (m - 180) : ℤ) : ℝ) := by push_cast; ring
          rw [hw, hcast, trunc_intCast, clampI_of_mem (by omega) (by omega)]
          rw [convInv_piece3 (by exact_mod_cast (by omega : (120:ℤ) ≤ 120 + 2 * (m - 180)))
            (by exact_mod_cast (by omega : 120 + 2 * (m - 180) < 240))]
          push_cast
          refine ⟨by linarith, by linarith, by linarith, by linarith⟩
        · have hw : convertHueAngle ColorModel.RYB (m : ℝ) 1 = (m : ℝ) :=
            convFwd_piece4 (by exact_mod_cast not_lt.1 c3)
          rw [hw, trunc_intCast, clampI_of_mem hm0 (by omega)]
          rw [convInv_piece4 (by exact_mod_cast (by omega : (240:ℤ) ≤ m))]
          refine ⟨hmR0, hmR1, by linarith, le_refl _⟩

/-- One coordinate of the indicator-placement error, for a 1-Lipschitz,
1-bounded function `g` (cosine or sine). -/
theorem coord_bound (g : ℝ → ℝ) (hLip : ∀ p q, |g p - g q| ≤ |p - q|)
    (hB : ∀ p, |g p| ≤ 1) {th a d rdist r : ℝ} {x : ℤ}
    (hth : |th - a| ≤ π / 90) (hdist : |rdist - d| ≤ r / 100)
    (hd : 0 ≤ d) (hdr : d ≤ r)
    (hx : |(x : ℝ) - g th * rdist| < 1) :
    |(x : ℝ) - g a * d| ≤ 2 + r * (π / 90 + 1 / 100) := by
  have hr0 : 0 ≤ r := le_trans hd hdr
  have t1 : |(x : ℝ) - g a * d| ≤
      |(x : ℝ) - g th * rdist| + |g th * rdist - g th * d| + |g th * d - g a * d| := by
    calc |(x : ℝ) - g a * d| ≤
        |(x : ℝ) - g th * d| + |g th * d - g a * d| := abs_sub_le _ _ _
      _ ≤ (|(x : ℝ) - g th * rdist| + |g th * rdist - g th * d|) +
          |g th * d - g a * d| := by
          have := abs_sub_le ((x : ℝ)) (g th * rdist) (g th * d)
          linarith
  have t2 : |g th * rdist - g th * d| ≤ r / 100 := by
    rw [show g th * rdist - g th * d = g th * (rdist - d) by ring, abs_mul]
    calc |g th| * |rdist - d| ≤ 1 * (r / 100) :=
        mul_le_mul (hB th) hdist (abs_nonneg _) (by norm_num)
      _ = r / 100 := by ring
  have t3 : |g th * d - g a * d| ≤ r * (π / 90) := by
    rw [show g th * d - g a * d = (g th - g a) * d by ring, abs_mul,
      abs_of_nonneg hd]
    calc |g th - g a| * d ≤ (π / 90) * d :=
        mul_le_mul_of_nonneg_right (le_trans (hLip th a) hth) hd
      _ ≤ (π / 90) * r := by
          apply mul_le_mul_of_nonneg_left hdr
          positivity
      _ = r * (π / 90) := by ring
  have hπ := Real.pi_pos
  calc |(x : ℝ) - g a * d| ≤
      |(x : ℝ) - g th * rdist| + |g th * rdist - g th * d| + |g th * d - g a * d| := t1
    _ ≤ 1 + r / 100 + r * (π / 90) := by linarith
    _ ≤ 2 + r * (π / 90 + 1 / 100) := by ring_nf; linarith

set_option maxHeartbeats 1000000 in
/-- Claim C1 (amended): in continuous (non-discrete) mode, for STANDARD
and RYB, picking an in-wheel, non-swatch pixel with `getMainAreaColor`
and placing the indicator for it the way `onPaintMainArea` does (through
`getColorInHarmony` index 0, whose hue offset is 0 and saturation scale
100 in every pattern, so the angle uses the harmony-frame hue
`convertHueAngle(hue, -1) - 30`) lands within
`2 + radius·(π/90 + 1/100)` of the original pixel in each coordinate.
The 1-pixel tolerance of the claim as stated fails (see the
counterexample), since hue is truncated to whole degrees before placement
and saturation to whole percent, both errors scaling with the radius. -/
theorem c1_roundtrip_bounded (st : WheelState) (pu umax pv vmax u v : ℤ)
    (hu : u = pu - Int.tdiv umax 2) (hv : v = pv - Int.tdiv vmax 2)
    (hdisc : st.discrete = false)
    (hmodel : st.colorModel = ColorModel.STANDARD ∨
      st.colorModel = ColorModel.RYB)
    (hr : 0 < st.wheelRadius)
    (hns : st.color.getAlpha ≤ 0 ∨ findSwatch st umax vmax pu pv = none)
    (hd : Real.sqrt ((u : ℝ) * u + (v : ℝ) * v) ≤ st.wheelRadius) :
    |(((indicatorOffset
        { st with color := (getMainAreaColor st pu umax pv vmax).1 } 0).1 : ℤ) : ℝ) -
      (u : ℝ)| ≤ 2 + st.wheelRadius * (π / 90 + 1 / 100) ∧
    |(((indicatorOffset
        { st with color := (getMainAreaColor st pu umax pv vmax).1 } 0).2 : ℤ) : ℝ) -
      (v : ℝ)| ≤ 2 + st.wheelRadius * (π / 90 + 1 / 100) := by
  subst hu
  subst hv
  have hnm : st.colorModel ≠ ColorModel.NORMAL_MAP := by
    rcases hmodel with h | h <;> simp [h]
  have hq : (getMainAreaColor st pu umax pv vmax).1 =
      wheelPick st (pu - Int.tdiv umax 2) (pv - Int.tdiv vmax 2)
        (Real.sqrt (((pu - Int.tdiv umax 2 : ℤ) : ℝ) * ((pu - Int.tdiv umax 2 : ℤ) : ℝ) +
          ((pv - Int.tdiv vmax 2 : ℤ) : ℝ) * ((pv - Int.tdiv vmax 2 : ℤ) : ℝ))) := by
    rw [getMainAreaColor_eq_mainPick st pu umax pv vmax hns,
      mainPick_wheel st _ _ hnm hd]
  rw [hq]
  simp only [indicatorOffset, getColorInHarmony, wheelPick, hdisc,
    Bool.false_eq_true, if_false, Color.getHsvHue, Color.getHsvSaturation,
    Color.getHsvValue]
  have hi7 : (clampI st.harmony 0 7).toNat ≤ 7 := by
    have := @clampI_mem st.harmony 0 7 (by norm_num)
    omega
  have hjc : (clampI (0 : ℤ) 0
      (harmoniesN (clampI st.harmony 0 7).toNat - 1)).toNat = 0 := by
    have hn := harmoniesN_mem (clampI st.harmony 0 7).toNat
    rw [clampI_of_mem (le_refl 0) (by omega)]
    rfl
  rw [hjc, harmoniesHues_col0, harmoniesSats_col0 hi7]
  simp only [Int.cast_zero, add_zero]
  set D := Real.sqrt (((pu - Int.tdiv umax 2 : ℤ) : ℝ) * ((pu - Int.tdiv umax 2 : ℤ) : ℝ) +
    ((pv - Int.tdiv vmax 2 : ℤ) : ℝ) * ((pv - Int.tdiv vmax 2 : ℤ) : ℝ)) with hD
  set a := atan2 (-((pv - Int.tdiv vmax 2 : ℤ) : ℝ)) ((pu - Int.tdiv umax 2 : ℤ) : ℝ)
    with haeq
  set K := trunc (180 * a / π) with hK
  set M := (K + 180 + 180 + 30).tmod 360 with hM
  set SatI := trunc (100 * D / st.wheelRadius) with hSatI
  set E := convertHueAngle st.colorModel
    ((clampI (trunc (convertHueAngle st.colorModel ((M : ℤ) : ℝ) 1)) 0 360 : ℤ) : ℝ)
    (-1) with hE
  have hD0 : 0 ≤ D := by rw [hD]; exact Real.sqrt_nonneg _
  have hKmem : -179 ≤ K ∧ K ≤ 180 := by
    rw [hK, haeq]
    exact angle_trunc_mem _ _
  have hcont : 0 ≤ M ∧ M < 360 ∧ ∃ c : ℤ, M - 30 = K + 360 * c := by
    rw [hM]
    exact cont_hue_spec hKmem.1 hKmem.2
  have hEfacts : 0 ≤ E ∧ E < 360 ∧ (M : ℝ) - 1 ≤ E ∧ E ≤ (M : ℝ) := by
    rw [hE]
    exact convHue_trunc_roundtrip hmodel hcont.1 hcont.2.1
  rw [fmod_eq_self hEfacts.1 (by norm_num) hEfacts.2.1]
  have hfrac0 : (0 : ℝ) ≤ 100 * D / st.wheelRadius :=
    div_nonneg (mul_nonneg (by norm_num) hD0) hr.le
  have hSf : SatI = ⌊100 * D / st.wheelRadius⌋ := by
    rw [hSatI]
    exact trunc_eq_floor hfrac0
  have hS0 : 0 ≤ SatI := by
    rw [hSf]
    exact Int.floor_nonneg.2 hfrac0
  have hS100 : SatI ≤ 100 := by
    rw [hSatI]
    refine trunc_le_of_le ?_ hfrac0
    push_cast
    rw [div_le_iff hr]
    nlinarith
  have hSR0 : (0 : ℝ) ≤ (SatI : ℝ) / 100 := by
    have : (0 : ℝ) ≤ (SatI : ℝ) := by exact_mod_cast hS0
    linarith
  have hSR1 : (SatI : ℝ) / 100 ≤ 1 := by
    have : (SatI : ℝ) ≤ 100 := by exact_mod_cast hS100
    linarith
  rw [clampR_of_mem hSR0 hSR1]
  rw [show ((SatI : ℝ) / 100 * ((100 : ℤ) : ℝ) / 100) = (SatI : ℝ) / 100 from by
    push_cast
    ring]
  rw [clampR_of_mem hSR0 hSR1]
  obtain ⟨cc, hcc⟩ := hcont.2.2
  have hθ : π * (E - 30) / 180 =
      π * ((K : ℝ) + (E - (M : ℝ))) / 180 + (cc : ℝ) * (2 * π) := by
    have hMc : (M : ℝ) - 30 = (K : ℝ) + 360 * (cc : ℝ) := by exact_mod_cast hcc
    have h1 : E - 30 = ((K : ℝ) + (E - (M : ℝ))) + 360 * (cc : ℝ) := by linarith
    rw [h1]
    ring
  rw [hθ, Real.cos_add_int_mul_two_pi, Real.sin_add_int_mul_two_pi]
  set θp := π * ((K : ℝ) + (E - (M : ℝ))) / 180 with hθp
  have hπ := Real.pi_pos
  have hθa : |θp - a| ≤ π / 90 := by
    have hKa : |(K : ℝ) - 180 * a / π| < 1 := by
      rw [hK]
      exact abs_trunc_sub_lt _
    have hδ1 : (-1 : ℝ) ≤ E - (M : ℝ) := by linarith [hEfacts.2.2.1]
    have hδ2 : E - (M : ℝ) ≤ 0 := by linarith [hEfacts.2.2.2]
    have heq : θp - a = (π / 180) * (((K : ℝ) + (E - (M : ℝ))) - 180 * a / π) := by
      rw [hθp]
      field_simp
      ring
    rw [heq, abs_mul, abs_of_pos (by positivity : (0 : ℝ) < π / 180)]
    have habs : |((K : ℝ) + (E - (M : ℝ))) - 180 * a / π| ≤ 2 := by
      have h2 : ((K : ℝ) + (E - (M : ℝ))) - 180 * a / π =
          ((K : ℝ) - 180 * a / π) + (E - (M : ℝ)) := by ring
      rw [h2]
      have hδa : |E - (M : ℝ)| ≤ 1 := abs_le.2 ⟨hδ1, by linarith⟩
      calc |((K : ℝ) - 180 * a / π) + (E - (M : ℝ))| ≤
          |(K : ℝ) - 180 * a / π| + |E - (M : ℝ)| := abs_add _ _
        _ ≤ 2 := by linarith [le_of_lt hKa]
    calc (π / 180) * |((K : ℝ) + (E - (M : ℝ))) - 180 * a / π| ≤
        (π / 180) * 2 := mul_le_mul_of_nonneg_left habs (by positivity)
      _ = π / 90 := by ring
  have hdistb : |st.wheelRadius * ((SatI : ℝ) / 100) - D| ≤ st.wheelRadius / 100 := by
    have hfl : ((⌊100 * D / st.wheelRadius⌋ : ℤ) : ℝ) ≤ 100 * D / st.wheelRadius :=
      Int.floor_le _
    have hfu : 100 * D / st.wheelRadius < ((⌊100 * D / st.wheelRadius⌋ : ℤ) : ℝ) + 1 :=
      Int.lt_floor_add_one _
    rw [← hSf] at hfl hfu
    have e1 : (SatI : ℝ) * st.wheelRadius ≤ 100 * D := by
      have h3 := mul_le_mul_of_nonneg_right hfl hr.le
      rwa [div_mul_cancel₀ _ hr.ne'] at h3
    have e2 : 100 * D < ((SatI : ℝ) + 1) * st.wheelRadius := by
      have h3 := mul_lt_mul_of_pos_right hfu hr
      rwa [div_mul_cancel₀ _ hr.ne'] at h3
    rw [abs_le]
    constructor <;> nlinarith
  have hUeq : Real.cos a * D = ((pu - Int.tdiv umax 2 : ℤ) : ℝ) := by
    rw [haeq, hD, show ((pu - Int.tdiv umax 2 : ℤ) : ℝ) * ((pu - Int.tdiv umax 2 : ℤ) : ℝ) +
        ((pv - Int.tdiv vmax 2 : ℤ) : ℝ) * ((pv - Int.tdiv vmax 2 : ℤ) : ℝ) =
        ((pu - Int.tdiv umax 2 : ℤ) : ℝ) ^ 2 + (-((pv - Int.tdiv vmax 2 : ℤ) : ℝ)) ^ 2
      from by ring]
    exact cos_atan2_mul _ _
  have hVeq : Real.sin a * D = -((pv - Int.tdiv vmax 2 : ℤ) : ℝ) := by
    rw [haeq, hD, show ((pu - Int.tdiv umax 2 : ℤ) : ℝ) * ((pu - Int.tdiv umax 2 : ℤ) : ℝ) +
        ((pv - Int.tdiv vmax 2 : ℤ) : ℝ) * ((pv - Int.tdiv vmax 2 : ℤ) : ℝ) =
        ((pu - Int.tdiv umax 2 : ℤ) : ℝ) ^ 2 + (-((pv - Int.tdiv vmax 2 : ℤ) : ℝ)) ^ 2
      from by ring]
    exact sin_atan2_mul _ _
  refine ⟨?_, ?_⟩
  · rw [show Real.cos θp * st.wheelRadius * ((SatI : ℝ) / 100) =
      Real.cos θp * (st.wheelRadius * ((SatI : ℝ) / 100)) from by ring]
    rw [show ((pu - Int.tdiv umax 2 : ℤ) : ℝ) = Real.cos a * D from hUeq.symm]
    exact coord_bound Real.cos abs_cos_sub_cos_le Real.abs_cos_le_one hθa hdistb
      hD0 hd (abs_trunc_sub_lt _)
  · rw [show -(Real.sin θp * st.wheelRadius * ((SatI : ℝ) / 100)) =
      (-(Real.sin θp)) * (st.wheelRadius * ((SatI : ℝ) / 100)) from by ring]
    rw [show ((pv - Int.tdiv vmax 2 : ℤ) : ℝ) = (-(Real.sin a)) * D from by
      rw [neg_mul]
      linarith [hVeq]]
    exact coord_bound (fun p => -(Real.sin p))
      (fun p q => by
        rw [show -(Real.sin p) - -(Real.sin q) = -(Real.sin p - Real.sin q) from by
          ring, abs_neg]
        exact abs_sin_sub_sin_le p q)
      (fun p => by rw [abs_neg]; exact Real.abs_sin_le_one p)
      hθa hdistb hD0 hd (abs_trunc_sub_lt _)

theorem sqrt_dist_100 :
    Real.sqrt (((0 : ℤ) : ℝ) * ((0 : ℤ) : ℝ) +
      ((-100 : ℤ) : ℝ) * ((-100 : ℤ) : ℝ)) = 100 := by
  rw [show (((0 : ℤ) : ℝ) * ((0 : ℤ) : ℝ) +
    ((-100 : ℤ) : ℝ) * ((-100 : ℤ) : ℝ)) = (100 : ℝ) ^ 2 by norm_num]
  exact Real.sqrt_sq (by norm_num)

/-- Counterexample to C1 as stated: under RYB, continuous mode, radius
100, the in-wheel pixel offset (0, -100) (top of the wheel) picks the
display color hue 60, saturation 1; the claim's placement formula
(angle = hue - 30 taken directly from the returned color) puts the
indicator at (86, -50), which is 86 pixels away horizontally and 50
vertically from the original pixel -- far beyond 1 pixel.  (The code's own
indicator path first maps the hue back with `convertHueAngle(·, -1)`.) -/
theorem c1_roundtrip_counterexample :
    (getMainAreaColor
        ⟨Color.hsv 0 0 1 0, ColorModel.RYB, 0, false, 100, false, 255⟩
        0 0 (-100) 0).1 = Color.hsv 60 1 1 255 ∧
    specColorToPixel (Color.hsv 60 1 1 255).getHsvHue
      (Color.hsv 60 1 1 255).getHsvSaturation 100 = (86, -50) ∧
    (0 - Int.tdiv 0 2 : ℤ) = 0 ∧ (-100 - Int.tdiv 0 2 : ℤ) = -100 ∧
    Real.sqrt (((0 : ℤ) : ℝ) * ((0 : ℤ) : ℝ) +
      ((-100 : ℤ) : ℝ) * ((-100 : ℤ) : ℝ)) ≤ (100 : ℝ) ∧
    1 < |(86 : ℝ) - 0| ∧ 1 < |(-50 : ℝ) - (-100)| := by
  refine ⟨?_, ?_, by decide, by decide, by rw [sqrt_dist_100], by norm_num,
    by norm_num⟩
  · rw [getMainAreaColor_eq_mainPick _ 0 0 (-100) 0 (Or.inl (by decide))]
    simp only
    rw [show (0 - Int.tdiv 0 2 : ℤ) = 0 from by decide,
      show (-100 - Int.tdiv 0 2 : ℤ) = -100 from by decide]
    rw [mainPick_wheel _ 0 (-100) (by decide) (by rw [sqrt_dist_100])]
    simp only [wheelPick, Bool.false_eq_true, if_false, Color.isMask,
      Color.getHsvValue]
    rw [sqrt_dist_100]
    have ha : atan2 (-((-100 : ℤ) : ℝ)) ((0 : ℤ) : ℝ) = π / 2 := by
      rw [show -((-100 : ℤ) : ℝ) = 100 by norm_num,
        show ((0 : ℤ) : ℝ) = 0 by norm_num]
      unfold atan2
      rw [if_neg (by norm_num), if_neg (by norm_num), if_pos (by norm_num)]
    rw [ha]
    have hk : trunc (180 * (π / 2) / π) = 90 := by
      rw [show 180 * (π / 2) / π = ((90 : ℤ) : ℝ) from by
        push_cast
        field_simp
        ring]
      exact trunc_intCast 90
    rw [hk]
    rw [show ((90 : ℤ) + 180 + 180 + 30).tmod 360 = 120 from by decide]
    have hconv : convertHueAngle ColorModel.RYB ((120 : ℤ) : ℝ) 1 =
        ((60 : ℤ) : ℝ) := by
      push_cast
      rw [convFwd_piece2 (by norm_num) (by norm_num)]
      norm_num
    rw [hconv, trunc_intCast, show clampI 60 0 360 = 60 from by decide]
    have hsat : trunc (100 * (100 : ℝ) / 100) = 100 := by
      rw [show (100 * (100 : ℝ) / 100) = ((100 : ℤ) : ℝ) by norm_num]
      exact trunc_intCast 100
    rw [hsat]
    rw [show (((100 : ℤ) : ℝ) / 100) = (1 : ℝ) by norm_num,
      clampR_of_mem (by norm_num) (by norm_num)]
    norm_num
  · simp only [specColorToPixel, Color.getHsvHue, Color.getHsvSaturation]
    rw [show π * ((60 : ℝ) - 30) / 180 = π / 6 by ring]
    rw [Real.cos_pi_div_six, Real.sin_pi_div_six]
    have hsq3 := Real.sq_sqrt (show (0 : ℝ) ≤ 3 by norm_num)
    have hsq3n := Real.sqrt_nonneg 3
    have hx : trunc (Real.sqrt 3 / 2 * 100 * 1) = 86 := by
      rw [trunc_eq_floor (by positivity)]
      rw [Int.floor_eq_iff]
      constructor
      · push_cast
        nlinarith
      · push_cast
        nlinarith
    have hy : trunc (-(1 / 2 * (100 : ℝ) * 1)) = -50 := by
      rw [show (-(1 / 2 * (100 : ℝ) * 1)) = ((-50 : ℤ) : ℝ) by norm_num]
      exact trunc_intCast (-50)
    rw [hx, hy]

theorem sqrt_dist_100_le :
    Real.sqrt (((0 - Int.tdiv 0 2 : ℤ) : ℝ) * ((0 - Int.tdiv 0 2 : ℤ) : ℝ) +
      ((-100 - Int.tdiv 0 2 : ℤ) : ℝ) * ((-100 - Int.tdiv 0 2 : ℤ) : ℝ)) ≤
      (100 : ℝ) := by
  rw [show (0 - Int.tdiv 0 2 : ℤ) = 0 from by decide,
    show (-100 - Int.tdiv 0 2 : ℤ) = -100 from by decide, sqrt_dist_100]

/-- Witness for C1 (amended) at the pixel offset (0, -100), STANDARD
model, radius 100. -/
theorem c1_roundtrip_bounded_witness :
    |(((indicatorOffset
        { (⟨Color.hsv 0 0 1 0, ColorModel.STANDARD, 0, false, 100, false, 255⟩ :
            WheelState) with
          color := (getMainAreaColor
            ⟨Color.hsv 0 0 1 0, ColorModel.STANDARD, 0, false, 100, false, 255⟩
            0 0 (-100) 0).1 } 0).1 : ℤ) : ℝ) - ((0 : ℤ) : ℝ)| ≤
      2 + (100 : ℝ) * (π / 90 + 1 / 100) ∧
    |(((indicatorOffset
        { (⟨Color.hsv 0 0 1 0, ColorModel.STANDARD, 0, false, 100, false, 255⟩ :
            WheelState) with
          color := (getMainAreaColor
            ⟨Color.hsv 0 0 1 0, ColorModel.STANDARD, 0, false, 100, false, 255⟩
            0 0 (-100) 0).1 } 0).2 : ℤ) : ℝ) - ((-100 : ℤ) : ℝ)| ≤
      2 + (100 : ℝ) * (π / 90 + 1 / 100) :=
  c1_roundtrip_bounded
    ⟨Color.hsv 0 0 1 0, ColorModel.STANDARD, 0, false, 100, false, 255⟩
    0 0 (-100) 0 0 (-100) (by decide) (by decide) rfl (Or.inl rfl)
    (by norm_num) (Or.inl (by decide)) sqrt_dist_100_le
